import Mathlib

/-!
Verification of the NEXUS workflow execution core (src-tauri/src/workflow)
against its natural-language specification.

The Rust sources are shallowly embedded: HashMaps become association lists,
Uuids and timestamps become `Nat`, `serde_json::Value` becomes a small
`JsonVal` inductive, and the asynchronous executor loops become pure state
machines driven by an explicit environment (per-node task outcomes and the
level during which a cancellation signal is delivered).  All definitions are
executable.
-/

namespace Nexus

/-! ## JSON values (`serde_json::Value`, restricted to what the claims use) -/

inductive JsonVal where
  | null : JsonVal
  | bool (b : Bool) : JsonVal
  | num (n : Int) : JsonVal
  | str (s : String) : JsonVal
  deriving DecidableEq, Repr

/-! ## Graph layer (`workflow/graph.rs`) -/

/-- `graph.rs::ParsedNode`. -/
structure ParsedNode where
  id : String
  label : String
  agent_role : String
  system_prompt : Option String
  assigned_task : Option String
  deriving DecidableEq, Repr

/-- `graph.rs::ParsedEdge`. -/
structure ParsedEdge where
  id : String
  source : String
  target : String
  data_type : Option String
  deriving DecidableEq, Repr

/-- `graph.rs::GraphError`. -/
inductive GraphError where
  | InvalidFormat (msg : String)
  | CycleDetected
  | NodeNotFound (id : String)
  | JsonError (msg : String)
  deriving DecidableEq, Repr

/-- `graph.rs::WorkflowGraph`.  The Rust struct stores the node map
(`HashMap<String, ParsedNode>`, embedded as an association list) and the edge
list; its `successors`/`predecessors` adjacency maps are built by `from_json`
from exactly these edges, so here they are derived functions
(`successorsOf` / `predecessorsOf`). -/
structure WorkflowGraph where
  nodes : List (String × ParsedNode)
  edges : List ParsedEdge
  deriving DecidableEq, Repr

/-- The keys of the node map. -/
def nodeIds (g : WorkflowGraph) : List String :=
  g.nodes.map (·.1)

/-- `successors[u]`: for each edge in order, `from_json` pushes
`edge.target` onto `successors[edge.source]`. -/
def successorsOf (g : WorkflowGraph) (u : String) : List String :=
  (g.edges.filter (fun e => e.source == u)).map (·.target)

/-- `predecessors[v]`: for each edge in order, `from_json` pushes
`edge.source` onto `predecessors[edge.target]`. -/
def predecessorsOf (g : WorkflowGraph) (v : String) : List String :=
  (g.edges.filter (fun e => e.target == v)).map (·.source)

/-- `WorkflowGraph::get_dependencies`. -/
def WorkflowGraph.get_dependencies (g : WorkflowGraph) (node_id : String) : List String :=
  predecessorsOf g node_id

/-- `WorkflowGraph::node_count`. -/
def WorkflowGraph.node_count (g : WorkflowGraph) : Nat :=
  g.nodes.length

/-- `WorkflowGraph::is_empty`. -/
def WorkflowGraph.is_empty (g : WorkflowGraph) : Bool :=
  g.nodes.isEmpty

/-! ### Parsing (`WorkflowGraph::from_json`)

The React-Flow JSON input is modelled structurally: `Option` captures the
presence of the required `nodes` / `edges` fields, and each entry carries the
fields the Rust deserializer extracts. -/

/-- A node entry of the input (`graph.rs::ReactFlowNode` + its `data`). -/
structure RawNode where
  id : String
  label : String
  agentRole : String
  systemPrompt : Option String
  assignedTask : Option String
  deriving DecidableEq, Repr

/-- An edge entry of the input (`graph.rs::ReactFlowEdge`). -/
structure RawEdge where
  id : String
  source : String
  target : String
  dataType : Option String
  deriving DecidableEq, Repr

/-- The graph JSON object: `graph_json.get("nodes")` / `.get("edges")`. -/
structure GraphJson where
  nodes : Option (List RawNode)
  edges : Option (List RawEdge)
  deriving DecidableEq, Repr

/-- `HashMap::insert`: replace the value when the key is present, otherwise
add the entry. -/
def insertNode (m : List (String × ParsedNode)) (k : String) (v : ParsedNode) :
    List (String × ParsedNode) :=
  if m.any (fun p => p.1 == k) then
    m.map (fun p => if p.1 == k then (k, v) else p)
  else
    m ++ [(k, v)]

/-- `HashMap::contains_key`. -/
def containsKey (m : List (String × ParsedNode)) (k : String) : Bool :=
  m.any (fun p => p.1 == k)

/-- The edge loop of `from_json`: each edge's endpoints are validated against
the node map (first offender aborts with `NodeNotFound`), then the edge is
converted. -/
def validateEdges (m : List (String × ParsedNode)) :
    List RawEdge → Except GraphError (List ParsedEdge)
  | [] => .ok []
  | e :: rest =>
    if ¬ containsKey m e.source then .error (.NodeNotFound e.source)
    else if ¬ containsKey m e.target then .error (.NodeNotFound e.target)
    else
      match validateEdges m rest with
      | .error err => .error err
      | .ok tail => .ok (⟨e.id, e.source, e.target, e.dataType⟩ :: tail)

/-- `WorkflowGraph::from_json`.  Nodes are inserted into the map one by one
(so a duplicated id silently replaces the earlier entry); a missing `nodes`
or `edges` field is `InvalidFormat`; an edge endpoint absent from the node
map is `NodeNotFound`. -/
def from_json (j : GraphJson) : Except GraphError WorkflowGraph :=
  match j.nodes with
  | none => .error (.InvalidFormat "Missing 'nodes' field")
  | some rfNodes =>
    match j.edges with
    | none => .error (.InvalidFormat "Missing 'edges' field")
    | some rfEdges =>
      let nodes := rfNodes.foldl
        (fun m rn => insertNode m rn.id
          ⟨rn.id, rn.label, rn.agentRole, rn.systemPrompt, rn.assignedTask⟩) []
      match validateEdges nodes rfEdges with
      | .error err => .error err
      | .ok edges => .ok ⟨nodes, edges⟩

/-! ### Stratification (`WorkflowGraph::compute_execution_levels`)

Kahn's algorithm exactly as in the source: in-degrees from the predecessor
lists, a queue seeded with the zero-in-degree nodes, levels drained whole;
at the end, `processed_count != nodes.len()` reports `CycleDetected`.
The `while` loop is embedded with fuel `node count + 1`, which the proofs
show is never exhausted. -/

/-- Pointwise update of an in-degree table. -/
def updFn (f : String → Nat) (k : String) (v : Nat) : String → Nat :=
  fun x => if x == k then v else f x

/-- One decrement step of the inner loop: `in_degree.get_mut(succ_id)`
succeeds only for known nodes; a successor whose degree reaches zero is
pushed onto the next queue. -/
def processSucc (nodes : List String) (st : (String → Nat) × List String) (v : String) :
    (String → Nat) × List String :=
  if v ∈ nodes then
    let d := st.1 v - 1
    (updFn st.1 v d, if d = 0 then st.2 ++ [v] else st.2)
  else st

/-- Processing one drained level: decrement the in-degree of every successor
of every node of the level, collecting the next queue. -/
def processLevel (g : WorkflowGraph) (deg : String → Nat) (level : List String) :
    (String → Nat) × List String :=
  level.foldl (fun st u => (successorsOf g u).foldl (processSucc (nodeIds g)) st) (deg, [])

/-- The `while !queue.is_empty()` loop, with fuel. -/
def kahnLoop (g : WorkflowGraph) :
    Nat → List String → (String → Nat) → List (List String) → Nat →
    List (List String) × Nat
  | 0, _, _, levels, processed => (levels, processed)
  | fuel + 1, queue, deg, levels, processed =>
    if queue.isEmpty then (levels, processed)
    else
      let st := processLevel g deg queue
      kahnLoop g fuel st.2 st.1 (levels ++ [queue]) (processed + queue.length)

/-- `WorkflowGraph::compute_execution_levels`. -/
def WorkflowGraph.compute_execution_levels (g : WorkflowGraph) :
    Except GraphError (List (List String)) :=
  let deg0 : String → Nat := fun v => (predecessorsOf g v).length
  let queue0 := (nodeIds g).filter (fun v => deg0 v == 0)
  let r := kahnLoop g ((nodeIds g).length + 1) queue0 deg0 [] 0
  if r.2 ≠ (nodeIds g).length then .error .CycleDetected else .ok r.1

/-! ### Cycles (specification vocabulary for C1) -/

/-- There is an edge from `u` to `v`. -/
def hasEdge (g : WorkflowGraph) (u v : String) : Prop :=
  ∃ e ∈ g.edges, e.source = u ∧ e.target = v

/-- The graph contains a (directed) cycle. -/
def hasCycle (g : WorkflowGraph) : Prop :=
  ∃ v, Relation.TransGen (hasEdge g) v v

/-- The in-degree of `v` remaining after the nodes of `D` have been drained:
the number of in-edge occurrences of `v` whose source is outside `D`
(specification vocabulary for the stratification proof). -/
def remDeg (g : WorkflowGraph) (D : List String) (v : String) : Nat :=
  ((predecessorsOf g v).filter (fun u => !decide (u ∈ D))).length

/-! ## Execution state (`workflow/state.rs`)

Uuids and `DateTime<Utc>` timestamps are embedded as `Nat`; the state
mutators take the clock value (`Utc::now()`) as an argument. -/

/-- `state.rs::NodeExecutionStatus`. -/
inductive NodeExecutionStatus where
  | Pending
  | Running
  | Completed
  | Failed
  | Skipped
  deriving DecidableEq, Repr

/-- `state.rs::NodeExecutionState`. -/
structure NodeExecutionState where
  node_id : String
  status : NodeExecutionStatus
  agent_id : Option Nat
  progress : Nat
  started_at : Option Nat
  completed_at : Option Nat
  output : Option String
  error : Option String
  deriving DecidableEq, Repr

/-- `NodeExecutionState::new`. -/
def NodeExecutionState.new (node_id : String) : NodeExecutionState :=
  ⟨node_id, .Pending, none, 0, none, none, none, none⟩

/-- `NodeExecutionState::start`. -/
def NodeExecutionState.start (ns : NodeExecutionState) (agent_id : Nat) (now : Nat) :
    NodeExecutionState :=
  { ns with status := .Running, agent_id := some agent_id,
            started_at := some now, progress := 0 }

/-- `NodeExecutionState::complete`. -/
def NodeExecutionState.complete (ns : NodeExecutionState) (output : Option String) (now : Nat) :
    NodeExecutionState :=
  { ns with status := .Completed, completed_at := some now, progress := 100,
            output := output }

/-- `NodeExecutionState::fail`. -/
def NodeExecutionState.fail (ns : NodeExecutionState) (error : String) (now : Nat) :
    NodeExecutionState :=
  { ns with status := .Failed, completed_at := some now, error := some error }

/-- `NodeExecutionState::skip`.  (Note: the source sets status and
`completed_at` and stores the reason, but does not touch `progress`.) -/
def NodeExecutionState.skip (ns : NodeExecutionState) (reason : String) (now : Nat) :
    NodeExecutionState :=
  { ns with status := .Skipped, completed_at := some now, error := some reason }

/-- `NodeExecutionState::update_progress`. -/
def NodeExecutionState.update_progress (ns : NodeExecutionState) (progress : Nat) :
    NodeExecutionState :=
  { ns with progress := min progress 100 }

/-- `NodeExecutionState::is_terminal`. -/
def NodeExecutionState.is_terminal (ns : NodeExecutionState) : Bool :=
  match ns.status with
  | .Completed | .Failed | .Skipped => true
  | _ => false

/-- `state.rs::ExecutionStatus`. -/
inductive ExecutionStatus where
  | Pending
  | Running
  | Completed
  | Failed
  | Cancelled
  deriving DecidableEq, Repr

/-- `WorkflowExecutionState::completed_nodes`: terminal states counted over
the node-state map's values. -/
def completed_nodes (states : List NodeExecutionState) : Nat :=
  states.countP (fun ns => ns.is_terminal)

/-- `WorkflowExecutionState::get_overall_progress` over the node-state map's
values: `(Σ progress * 100) / (total * 100)`, and `100` for an empty map. -/
def get_overall_progress (states : List NodeExecutionState) : Nat :=
  let total := states.length
  if total = 0 then 100
  else ((states.foldl (fun acc ns => acc + ns.progress) 0) * 100) / (total * 100)

/-! ## Resource manager (`workflow/resources.rs`): the priority queue -/

/-- `resources.rs::TaskPriority`. -/
inductive TaskPriority where
  | Low
  | Normal
  | High
  | Critical
  deriving DecidableEq, Repr

/-- The discriminant values assigned in the source (`Low = 0 … Critical = 3`);
the derived `Ord` compares them. -/
def TaskPriority.toNat : TaskPriority → Nat
  | .Low => 0
  | .Normal => 1
  | .High => 2
  | .Critical => 3

/-- `resources.rs::QueuedTask` (ids and `queued_at` embedded as `Nat`). -/
structure QueuedTask where
  id : Nat
  execution_id : Nat
  node_id : String
  agent_role : String
  priority : TaskPriority
  queued_at : Nat
  deriving DecidableEq, Repr

/-- `impl Ord for QueuedTask` (resources.rs lines 115–123):
`match self.priority.cmp(&other.priority) { Equal => other.queued_at.cmp(&self.queued_at), ord => ord.reverse() }`. -/
def queuedTaskCmp (a b : QueuedTask) : Ordering :=
  match compare a.priority.toNat b.priority.toNat with
  | .eq => compare b.queued_at a.queued_at
  | ord => ord.swap

/-- `BinaryHeap::pop` returns a greatest element with respect to `Ord`; the
heap is embedded as the list of queued tasks. -/
def heapPop (l : List QueuedTask) : Option QueuedTask :=
  match l with
  | [] => none
  | x :: xs => some (xs.foldl (fun best y => if queuedTaskCmp y best = .gt then y else best) x)

/-- `ResourceManager::dequeue_task` pops the priority queue. -/
def dequeue_task (queue : List QueuedTask) : Option QueuedTask :=
  heapPop queue

/-! ## Retry and fallback (`workflow/retry.rs`)

The backoff delay (`f64` arithmetic with random jitter) is not part of any
claim and is not modelled; `should_retry` keeps the decision structure of the
source exactly.  Rust's case-insensitive substring test
`error.to_lowercase().contains(&pattern.to_lowercase())` is embedded over
the character lists (ASCII lowercasing — every pattern in the source is
ASCII). -/

/-- Substring containment on character lists: some suffix of the haystack
starts with the pattern. -/
def charListContains : List Char → List Char → Bool
  | _, [] => true
  | [], _ :: _ => false
  | h :: t, p :: ps => (p :: ps).isPrefixOf (h :: t) || charListContains t (p :: ps)

/-- `str::contains` (substring). -/
def strContains (hay pat : String) : Bool :=
  charListContains hay.data pat.data

/-- `str::to_lowercase` (ASCII). -/
def toLowerStr (s : String) : String :=
  ⟨s.data.map Char.toLower⟩

/-- Case-insensitive containment as used by `should_retry`. -/
def containsLower (error pat : String) : Bool :=
  strContains (toLowerStr error) (toLowerStr pat)

/-- `retry.rs::RetryConfig` (delay-related fields omitted: no claim touches
them). -/
structure RetryConfig where
  max_attempts : Nat
  retry_on_timeout : Bool
  retry_on_api_error : Bool
  retry_patterns : List String
  no_retry_patterns : List String
  deriving DecidableEq, Repr

/-- `RetryConfig::default`. -/
def RetryConfig.default : RetryConfig :=
  { max_attempts := 3
    retry_on_timeout := true
    retry_on_api_error := true
    retry_patterns := ["rate limit", "connection reset", "temporary failure",
                       "service unavailable", "timeout", "ETIMEDOUT", "ECONNRESET"]
    no_retry_patterns := ["authentication failed", "invalid api key",
                          "permission denied", "not found"] }

/-- `retry.rs::RetryDecision` (the delay of `Retry` is not modelled). -/
inductive RetryDecision where
  | Retry (attempt : Nat)
  | NoRetry (reason : String)
  | Exhausted (total_attempts : Nat)
  deriving DecidableEq, Repr

/-- Decisions that end the retry loop. -/
def RetryDecision.isFinal : RetryDecision → Bool
  | .Retry _ => false
  | _ => true

/-- `retry.rs::RetryState` (recorded errors kept as attempt/message pairs). -/
structure RetryState where
  config : RetryConfig
  current_attempt : Nat
  errors : List (Nat × String)
  deriving DecidableEq, Repr

/-- `RetryState::new`. -/
def RetryState.new (config : RetryConfig) : RetryState :=
  ⟨config, 0, []⟩

/-- `RetryState::should_retry`: increment the attempt counter; report
`Exhausted` past `max_attempts`; no-retry patterns take precedence; then the
timeout / API-error / custom-pattern conditions decide between `Retry` and
`NoRetry`. -/
def RetryState.should_retry (st : RetryState) (error : String) :
    RetryState × RetryDecision :=
  let attempt := st.current_attempt + 1
  let st1 := { st with current_attempt := attempt }
  if attempt > st.config.max_attempts then
    (st1, .Exhausted attempt)
  else if st.config.no_retry_patterns.any (fun pat => containsLower error pat) then
    (st1, .NoRetry "Error matches no-retry pattern")
  else
    let fromTimeout := st.config.retry_on_timeout &&
      (containsLower error "timeout" || containsLower error "timed out")
    let fromApi := st.config.retry_on_api_error &&
      (containsLower error "api" || containsLower error "rate limit")
    let fromCustom := st.config.retry_patterns.any (fun pat => containsLower error pat)
    if fromTimeout || fromApi || fromCustom then
      ({ st1 with errors := st1.errors ++ [(attempt, error)] }, .Retry attempt)
    else
      (st1, .NoRetry "Error does not match any retry patterns")

/-- `retry.rs::FallbackStrategy`. -/
inductive FallbackStrategy where
  | Skip
  | UseDefault (value : JsonVal)
  | AlternativeAgent (role : String) (system_prompt : Option String)
  | PauseForIntervention
  | FailWorkflow
  deriving DecidableEq, Repr

/-- One attempt of the retry loop of
`enhanced_executor.rs::spawn_enhanced_node_execution`, as observed by that
loop: the spawn fails, or the spawned agent's wait ends in an output or an
error. -/
inductive AttemptOutcome where
  | spawnErr (e : String)
  | waitOk (output : Option String)
  | waitErr (e : String)
  deriving DecidableEq, Repr

/-- How the retry loop of `spawn_enhanced_node_execution` leaves the node. -/
inductive NodeRunResult where
  | completed (output : Option String)
  | failed (error : String)
  | scriptExhausted
  deriving DecidableEq, Repr

/-- The retry loop of `spawn_enhanced_node_execution` (enhanced_executor.rs
lines 461–615), driven by the per-attempt outcomes: success completes the
node; an error consults `should_retry`, and a `NoRetry` or `Exhausted`
decision marks the node failed and propagates the error.  The configured
fallback strategy is carried exactly as in the source — which never reads
it. -/
def runNodeRetryLoop (fallback : FallbackStrategy) (st : RetryState) :
    List AttemptOutcome → NodeRunResult
  | [] => .scriptExhausted
  | .waitOk output :: _ => .completed output
  | .waitErr e :: rest =>
    match st.should_retry e with
    | (st1, .Retry _) => runNodeRetryLoop fallback st1 rest
    | (_, .NoRetry _) => .failed e
    | (_, .Exhausted _) => .failed e
  | .spawnErr e :: rest =>
    match st.should_retry e with
    | (st1, .Retry _) => runNodeRetryLoop fallback st1 rest
    | (_, .NoRetry _) => .failed e
    | (_, .Exhausted _) => .failed e

/-! ## Execution context (`workflow/context.rs`) -/

/-- `context.rs::OutputData`. -/
inductive OutputData where
  | Text (s : String)
  | Json (v : JsonVal)
  | FilePath (p : String)
  | FileSet (files : List String)
  | Code (language content : String)
  | Error (message : String) (details : Option String)
  | KeyValue (pairs : List (String × String))
  deriving DecidableEq, Repr

/-- `context.rs::AgentOutput`. -/
structure AgentOutput where
  agent_id : Nat
  node_id : String
  agent_role : String
  data : OutputData
  timestamp : Nat
  tags : List String
  deriving DecidableEq, Repr

/-- `context.rs::ExecutionContext`: the per-execution shared store (the
concurrent maps embedded as association lists). -/
structure ExecutionContext where
  execution_id : Nat
  project_id : Nat
  original_prompt : String
  outputs : List (String × List AgentOutput)
  vars : List (String × JsonVal)
  metadata : List (String × String)
  started_at : Nat
  deriving DecidableEq, Repr

/-- `ExecutionContext::get_all_variables`. -/
def ExecutionContext.get_all_variables (ctx : ExecutionContext) :
    List (String × JsonVal) :=
  ctx.vars

/-! ## Checkpointing (`workflow/checkpoint.rs` and
`enhanced_executor.rs::create_checkpoint`)

Serialization is embedded as the identity: `save` stores the checkpoint
value under its filename, `load_latest` reads it back, so a saved checkpoint
deserializes to exactly the value saved (serde round-trips the derived
`Serialize`/`Deserialize` pair).  The filename
`<execution_id>_<timestamp>.checkpoint.json` is embedded as the pair of the
two values it encodes. -/

/-- `checkpoint.rs::NodeCheckpointState`. -/
structure NodeCheckpointState where
  node_id : String
  status : NodeExecutionStatus
  agent_id : Option Nat
  progress : Nat
  started_at : Option Nat
  completed_at : Option Nat
  output : Option String
  error : Option String
  retry_attempts : List (Nat × String)
  deriving DecidableEq, Repr

/-- `checkpoint.rs::ExecutionCheckpoint`. -/
structure ExecutionCheckpoint where
  id : Nat
  execution_id : Nat
  workflow_id : Nat
  project_id : Nat
  original_prompt : String
  status : ExecutionStatus
  node_states : List (String × NodeCheckpointState)
  execution_levels : List (List String)
  vars : List (String × JsonVal)
  outputs : List (String × List AgentOutput)
  started_at : Nat
  checkpoint_at : Nat
  current_level : Nat
  version : Nat
  deriving DecidableEq, Repr

/-- The engine-side state snapshot that `create_checkpoint` reads
(`state.rs::WorkflowExecutionState`, the fields the function uses). -/
structure WorkflowExecutionState where
  execution_id : Nat
  workflow_id : Nat
  project_id : Nat
  status : ExecutionStatus
  node_states : List (String × NodeExecutionState)
  execution_levels : List (List String)
  started_at : Nat
  deriving DecidableEq, Repr

/-- `enhanced_executor.rs::create_checkpoint` (lines 675–717): node states
are copied field by field with `retry_attempts: vec![]`, levels and
variables are copied, and the outputs map is created empty (`let outputs =
HashMap::new()` — the source notes a full implementation would iterate the
context outputs).  `id` is the fresh `Uuid::new_v4()` and `now` the clock,
both taken as arguments. -/
def create_checkpoint (state : WorkflowExecutionState) (context : ExecutionContext)
    (current_level : Nat) (fresh_id : Nat) (now : Nat) : ExecutionCheckpoint :=
  { id := fresh_id
    execution_id := state.execution_id
    workflow_id := state.workflow_id
    project_id := state.project_id
    original_prompt := context.original_prompt
    status := state.status
    node_states := state.node_states.map (fun p =>
      (p.1, { node_id := p.2.node_id
              status := p.2.status
              agent_id := p.2.agent_id
              progress := p.2.progress
              started_at := p.2.started_at
              completed_at := p.2.completed_at
              output := p.2.output
              error := p.2.error
              retry_attempts := [] }))
    execution_levels := state.execution_levels
    vars := context.get_all_variables
    outputs := []
    started_at := state.started_at
    checkpoint_at := now
    current_level := current_level
    version := 1 }

/-- The checkpoint directory: filenames (execution id, checkpoint time)
mapped to the stored file contents. -/
abbrev CheckpointStore := List ((Nat × Nat) × ExecutionCheckpoint)

/-- `CheckpointManager::save`: write the serialized checkpoint under
`<execution_id>_<checkpoint_at>.checkpoint.json`. -/
def CheckpointManager.save (store : CheckpointStore) (checkpoint : ExecutionCheckpoint) :
    CheckpointStore :=
  store ++ [((checkpoint.execution_id, checkpoint.checkpoint_at), checkpoint)]

/-- `CheckpointManager::load_latest`: among the files whose name starts with
the execution id, deserialize the one with the greatest encoded timestamp. -/
def CheckpointManager.load_latest (store : CheckpointStore) (execution_id : Nat) :
    Option ExecutionCheckpoint :=
  let matching := store.filter (fun f => f.1.1 == execution_id)
  match matching with
  | [] => none
  | f :: fs => some (fs.foldl (fun best f2 => if f2.1.2 > best.1.2 then f2 else best) f).2

/-! ## Events (`workflow/events.rs`)

Events of one execution; the `execution_id` / `workflow_id` payloads common
to all variants are dropped (the models run a single execution).  The
`NodeStatusChanged` mirror events, which duplicate the per-node events, are
elided. -/

inductive WorkflowEvent where
  | ExecutionStarted (total_nodes : Nat)
  | NodeStarted (node_id : String)
  | NodeCompleted (node_id : String)
  | NodeFailed (node_id : String) (error : String)
  | NodeSkipped (node_id : String) (reason : String)
  | LevelStarted (level : Nat) (node_ids : List String)
  | LevelCompleted (level : Nat)
  | ProgressUpdate (completed_nodes total_nodes progress_percent : Nat)
  | ExecutionCompleted
  | ExecutionFailed (failed_nodes : List String)
  | ExecutionCancelled
  deriving DecidableEq, Repr

/-! ## The base execution engine (`executor.rs::run_execution`)

The spawned node tasks and the broadcast cancellation channel are embedded by
an explicit environment:

* `result n` is the join outcome of node `n`'s task
  (`spawn_node_execution`) when no cancellation interferes: `ok` for a
  completed agent, `err` for a spawn failure / agent failure / timeout.
* `cancelDuring = some k` means the cancel signal is broadcast while the
  tasks of level `k` are in flight: each of those tasks sees it at its
  polling tick (`wait_for_agent_completion`), kills its agent and returns the
  `Cancelled` error, and the main loop's receiver sees it at the top of the
  next level.  `none` means no cancellation.

Timestamps are collapsed to `0` and spawned agent ids to `0`: neither is
read by any claim. -/

/-- The join outcome of one node task. -/
inductive TaskResult where
  | ok (output : Option String)
  | err (msg : String)
  deriving DecidableEq, Repr

/-- The scheduling environment of one run. -/
structure ExecEnv where
  result : String → TaskResult
  cancelDuring : Option Nat

/-- `DashMap::get` over the node-state map. -/
def lookupState (m : List (String × NodeExecutionState)) (k : String) :
    Option NodeExecutionState :=
  (m.find? (fun p => p.1 == k)).map (·.2)

/-- `DashMap::get_mut` + closure (`WorkflowExecutionState::update_node_state`):
update the entry when present. -/
def updateState (m : List (String × NodeExecutionState)) (k : String)
    (f : NodeExecutionState → NodeExecutionState) :
    List (String × NodeExecutionState) :=
  m.map (fun p => if p.1 == k then (p.1, f p.2) else p)

/-- The mutable state of `run_execution`: the failed-node set, the shared
node-state map, the emitted event stream, and the set of agents killed by
cancellation. -/
structure ExecSt where
  failed : List String
  states : List (String × NodeExecutionState)
  events : List WorkflowEvent
  killed : List String
  deriving DecidableEq, Repr

/-- `deps.iter().any(|dep| failed_nodes.contains(dep))`. -/
def hasFailedDep (g : WorkflowGraph) (failed : List String) (n : String) : Bool :=
  (g.get_dependencies n).any (fun dep => failed.contains dep)

/-- Skipping one node: `state.update_node_state(.. skip ..)` and the
`NodeSkipped` event. -/
def skipNode (st : ExecSt) (n : String) : ExecSt :=
  { st with
    states := updateState st.states n (fun ns => ns.skip "Dependency failed" 0)
    events := st.events ++ [.NodeSkipped n "Dependency failed"] }

/-- One dispatched node task (`spawn_node_execution` joined at the level
barrier): the node starts; if the cancel signal arrives during this level's
flight the task kills its agent and returns the `Cancelled` error, which the
task records as node failure (its error branch); otherwise the environment's
outcome decides completion or failure. -/
def dispatchNode (env : ExecEnv) (idx : Nat) (st : ExecSt) (n : String) : ExecSt :=
  let st1 : ExecSt := { st with
    states := updateState st.states n (fun ns => ns.start 0 0)
    events := st.events ++ [.NodeStarted n] }
  if env.cancelDuring = some idx then
    { st1 with
      states := updateState st1.states n (fun ns => ns.fail "Execution cancelled" 0)
      events := st1.events ++ [.NodeFailed n "Execution cancelled"]
      failed := st1.failed ++ [n]
      killed := st1.killed ++ [n] }
  else
    match env.result n with
    | .ok output =>
      { st1 with
        states := updateState st1.states n (fun ns => ns.complete output 0)
        events := st1.events ++ [.NodeCompleted n] }
    | .err e =>
      { st1 with
        states := updateState st1.states n (fun ns => ns.fail e 0)
        events := st1.events ++ [.NodeFailed n e]
        failed := st1.failed ++ [n] }

/-- The body of one iteration of the level loop (executor.rs lines 230–343):
partition the level by failed dependencies, skip, `continue` when nothing
runs, otherwise `LevelStarted`, dispatch, join, `LevelCompleted`,
`ProgressUpdate`. -/
def processOneLevel (g : WorkflowGraph) (env : ExecEnv) (idx : Nat)
    (level : List String) (st : ExecSt) : ExecSt :=
  let toSkip := level.filter (fun n => hasFailedDep g st.failed n)
  let toRun := level.filter (fun n => !(hasFailedDep g st.failed n))
  let st1 := toSkip.foldl skipNode st
  if toRun.isEmpty then st1
  else
    let st2 := { st1 with events := st1.events ++ [.LevelStarted idx toRun] }
    let st3 := toRun.foldl (dispatchNode env idx) st2
    { st3 with events := st3.events ++
        [.LevelCompleted idx,
         .ProgressUpdate (completed_nodes (st3.states.map (·.2)))
           st3.states.length (get_overall_progress (st3.states.map (·.2)))] }

/-- The main loop's cancellation poll (`cancel_rx.try_recv()`): the signal
broadcast during level `k`'s flight is seen by the main receiver at every
later level top. -/
def cancelPending (env : ExecEnv) (idx : Nat) : Bool :=
  match env.cancelDuring with
  | some k => decide (k < idx)
  | none => false

/-- The level loop; the returned flag records the early return of the
cancellation branch (which emits `ExecutionCancelled`). -/
def runLevels (g : WorkflowGraph) (env : ExecEnv) :
    List (List String) → Nat → ExecSt → ExecSt × Bool
  | [], _, st => (st, false)
  | level :: rest, idx, st =>
    if cancelPending env idx then
      ({ st with events := st.events ++ [.ExecutionCancelled] }, true)
    else
      runLevels g env rest (idx + 1) (processOneLevel g env idx level st)

/-- `WorkflowExecutionState::new` initializes one `Pending` node state per
node of the levels. -/
def initSt (levels : List (List String)) : ExecSt :=
  ⟨[], levels.join.map (fun n => (n, NodeExecutionState.new n)), [], []⟩

/-- `executor.rs::run_execution` (lines 194–382).  The final status is the
last one written: `Cancelled` stays (written by `cancel()` at signal time)
when the loop returns early, but a loop that runs to completion overwrites it
with `Completed`/`Failed`. -/
def run_execution (g : WorkflowGraph) (env : ExecEnv) (levels : List (List String)) :
    ExecSt × ExecutionStatus :=
  match runLevels g env levels 0 (initSt levels) with
  | (st, true) => (st, .Cancelled)
  | (st, false) =>
    if st.failed.isEmpty then
      ({ st with events := st.events ++ [.ExecutionCompleted] }, .Completed)
    else
      ({ st with events := st.events ++ [.ExecutionFailed st.failed] }, .Failed)

/-- The execution state just before level `k` is processed. -/
def stateBeforeLevel (g : WorkflowGraph) (env : ExecEnv)
    (levels : List (List String)) (k : Nat) : ExecSt :=
  (runLevels g env (levels.take k) 0 (initSt levels)).1

/-- The run-set of level `k`: the level's nodes without a failed dependency
at that moment. -/
def runSetAtLevel (g : WorkflowGraph) (env : ExecEnv)
    (levels : List (List String)) (k : Nat) : List String :=
  (levels.getD k []).filter
    (fun n => !(hasFailedDep g (stateBeforeLevel g env levels k).failed n))

/-! ## The enhanced engine (`enhanced_executor.rs::run_enhanced_execution`)

Same embedding as the base engine, plus the per-node conditions: the
evaluation `condition.evaluate(&context, &node_statuses, &deps)` is taken as
an oracle pair (`condExec`, `condReason`) of the environment, applied to the
node, the node-status map maintained by the loop, and the node's
dependencies.  The per-level checkpoint write is I/O that alters neither the
loop state nor the event stream and is elided.  The per-node retry loop is
modelled separately (`runNodeRetryLoop`); here `result n` is its final
outcome. -/

/-- The enhanced scheduling environment. -/
structure EnhancedEnv where
  result : String → TaskResult
  condExec : String → List (String × NodeExecutionStatus) → List String → Bool
  condReason : String → List (String × NodeExecutionStatus) → List String → String
  cancelDuring : Option Nat

/-- The mutable state of `run_enhanced_execution`: additionally the
skipped-node set and the node-status map used by condition evaluation. -/
structure EnhSt where
  failed : List String
  skipped : List String
  statuses : List (String × NodeExecutionStatus)
  states : List (String × NodeExecutionState)
  events : List WorkflowEvent
  killed : List String
  deriving DecidableEq, Repr

/-- `HashMap::insert` on the node-status map. -/
def insertStatus (m : List (String × NodeExecutionStatus)) (k : String)
    (v : NodeExecutionStatus) : List (String × NodeExecutionStatus) :=
  (m.filter (fun p => !(p.1 == k))) ++ [(k, v)]

/-- The partition of one level (enhanced_executor.rs lines 244–272): failed
dependency first (reason `"Dependency failed"`), then the node's condition;
the skip list keeps each node's reason. -/
def partitionLevelEnh (g : WorkflowGraph) (env : EnhancedEnv) (failed : List String)
    (statuses : List (String × NodeExecutionStatus)) :
    List String → List (String × String) × List String
  | [] => ([], [])
  | n :: rest =>
    let r := partitionLevelEnh g env failed statuses rest
    if hasFailedDep g failed n then
      ((n, "Dependency failed") :: r.1, r.2)
    else if env.condExec n statuses (g.get_dependencies n) then
      (r.1, n :: r.2)
    else
      ((n, env.condReason n statuses (g.get_dependencies n)) :: r.1, r.2)

/-- Skipping one node in the enhanced loop: skipped set, status map, node
state and the `NodeSkipped` event. -/
def skipNodeEnh (st : EnhSt) (nr : String × String) : EnhSt :=
  { st with
    skipped := st.skipped ++ [nr.1]
    statuses := insertStatus st.statuses nr.1 .Skipped
    states := updateState st.states nr.1 (fun ns => ns.skip nr.2 0)
    events := st.events ++ [.NodeSkipped nr.1 nr.2] }

/-- One dispatched node in the enhanced loop (`spawn_enhanced_node_execution`
joined at the level barrier); outcomes additionally update the node-status
map used by later condition evaluations. -/
def dispatchNodeEnh (env : EnhancedEnv) (idx : Nat) (st : EnhSt) (n : String) : EnhSt :=
  let st1 : EnhSt := { st with
    states := updateState st.states n (fun ns => ns.start 0 0)
    events := st.events ++ [.NodeStarted n] }
  if env.cancelDuring = some idx then
    { st1 with
      states := updateState st1.states n (fun ns => ns.fail "Execution cancelled" 0)
      statuses := insertStatus st1.statuses n .Failed
      events := st1.events ++ [.NodeFailed n "Execution cancelled"]
      failed := st1.failed ++ [n]
      killed := st1.killed ++ [n] }
  else
    match env.result n with
    | .ok output =>
      { st1 with
        states := updateState st1.states n (fun ns => ns.complete output 0)
        statuses := insertStatus st1.statuses n .Completed
        events := st1.events ++ [.NodeCompleted n] }
    | .err e =>
      { st1 with
        states := updateState st1.states n (fun ns => ns.fail e 0)
        statuses := insertStatus st1.statuses n .Failed
        events := st1.events ++ [.NodeFailed n e]
        failed := st1.failed ++ [n] }

/-- One iteration of the enhanced level loop (enhanced_executor.rs lines
233–387). -/
def processOneLevelEnh (g : WorkflowGraph) (env : EnhancedEnv) (idx : Nat)
    (level : List String) (st : EnhSt) : EnhSt :=
  let part := partitionLevelEnh g env st.failed st.statuses level
  let st1 := part.1.foldl skipNodeEnh st
  if part.2.isEmpty then st1
  else
    let st2 := { st1 with events := st1.events ++ [.LevelStarted idx part.2] }
    let st3 := part.2.foldl (dispatchNodeEnh env idx) st2
    { st3 with events := st3.events ++
        [.LevelCompleted idx,
         .ProgressUpdate (completed_nodes (st3.states.map (·.2)))
           st3.states.length (get_overall_progress (st3.states.map (·.2)))] }

/-- The main loop's cancellation poll of the enhanced engine. -/
def cancelPendingEnh (env : EnhancedEnv) (idx : Nat) : Bool :=
  match env.cancelDuring with
  | some k => decide (k < idx)
  | none => false

/-- The enhanced level loop. -/
def runLevelsEnh (g : WorkflowGraph) (env : EnhancedEnv) :
    List (List String) → Nat → EnhSt → EnhSt × Bool
  | [], _, st => (st, false)
  | level :: rest, idx, st =>
    if cancelPendingEnh env idx then
      ({ st with events := st.events ++ [.ExecutionCancelled] }, true)
    else
      runLevelsEnh g env rest (idx + 1) (processOneLevelEnh g env idx level st)

/-- The initial enhanced state. -/
def initStEnh (levels : List (List String)) : EnhSt :=
  ⟨[], [], [], levels.join.map (fun n => (n, NodeExecutionState.new n)), [], []⟩

/-- `enhanced_executor.rs::run_enhanced_execution` (lines 202–411). -/
def run_enhanced_execution (g : WorkflowGraph) (env : EnhancedEnv)
    (levels : List (List String)) : EnhSt × ExecutionStatus :=
  match runLevelsEnh g env levels 0 (initStEnh levels) with
  | (st, true) => (st, .Cancelled)
  | (st, false) =>
    if st.failed.isEmpty then
      ({ st with events := st.events ++ [.ExecutionCompleted] }, .Completed)
    else
      ({ st with events := st.events ++ [.ExecutionFailed st.failed] }, .Failed)

/-- The enhanced state just before level `k`. -/
def stateBeforeLevelEnh (g : WorkflowGraph) (env : EnhancedEnv)
    (levels : List (List String)) (k : Nat) : EnhSt :=
  (runLevelsEnh g env (levels.take k) 0 (initStEnh levels)).1

/-- The partition of level `k` at its processing moment. -/
def partitionAtLevelEnh (g : WorkflowGraph) (env : EnhancedEnv)
    (levels : List (List String)) (k : Nat) : List (String × String) × List String :=
  partitionLevelEnh g env (stateBeforeLevelEnh g env levels k).failed
    (stateBeforeLevelEnh g env levels k).statuses (levels.getD k [])

/-! ## Entry points (`WorkflowExecutor::execute`,
`EnhancedWorkflowExecutor::execute_enhanced`)

Only the segment from the parsed graph onwards is modelled (id parsing and
workflow lookup precede it and mutate nothing).  The effects record captures
what happens before the asynchronous loop starts: whether an execution record
was inserted into the store, whether an execution id was allocated, and the
events emitted synchronously. -/

/-- `executor.rs::ExecutorError` (the variants the entry path can produce). -/
inductive ExecutorError where
  | WorkflowNotFound (id : String)
  | InvalidWorkflowId (id : String)
  | InvalidProjectId (id : String)
  | GraphError (e : GraphError)
  | AgentSpawnFailed (msg : String)
  | Cancelled
  | AgentTimeout (msg : String)
  deriving DecidableEq, Repr

/-- The synchronous effects of an execute call. -/
structure ExecuteEffects where
  record_inserted : Bool
  id_allocated : Bool
  events : List WorkflowEvent
  deriving DecidableEq, Repr

/-- `WorkflowExecutor::execute` from the parsed graph on (executor.rs lines
85–133): empty-graph guard, level computation, then id allocation, record
insertion and the `ExecutionStarted` event. -/
def WorkflowExecutor.execute (g : WorkflowGraph) :
    Except ExecutorError Nat × ExecuteEffects :=
  if g.is_empty then
    (.error (.GraphError (.InvalidFormat "Workflow graph has no nodes")),
     ⟨false, false, []⟩)
  else
    match g.compute_execution_levels with
    | .error e => (.error (.GraphError e), ⟨false, false, []⟩)
    | .ok _ => (.ok 1, ⟨true, true, [.ExecutionStarted g.node_count]⟩)

/-- `EnhancedWorkflowExecutor::execute_enhanced` (enhanced_executor.rs lines
115–184): the same guard first; errors are strings at this layer. -/
def execute_enhanced (g : WorkflowGraph) : Except String Nat × ExecuteEffects :=
  if g.is_empty then
    (.error "Workflow graph has no nodes", ⟨false, false, []⟩)
  else
    match g.compute_execution_levels with
    | .error e =>
      (.error (match e with
        | .InvalidFormat msg => "Invalid graph format: " ++ msg
        | .CycleDetected => "Cycle detected in workflow graph"
        | .NodeNotFound id => "Node not found: " ++ id
        | .JsonError msg => "JSON parsing error: " ++ msg), ⟨false, false, []⟩)
    | .ok _ => (.ok 1, ⟨true, true, [.ExecutionStarted g.node_count]⟩)

/-! ## Concrete fixtures used by witnesses and counterexamples -/

/-- A node with the given id. -/
def mkNode (id : String) : ParsedNode :=
  ⟨id, id, "implementer", none, none⟩

/-- An edge with the given endpoints. -/
def mkEdge (id source target : String) : ParsedEdge :=
  ⟨id, source, target, none⟩

/-- The diamond DAG of the source's `test_topological_sort`:
a→b, a→c, b→d, c→d. -/
def diamondGraph : WorkflowGraph :=
  ⟨[("a", mkNode "a"), ("b", mkNode "b"), ("c", mkNode "c"), ("d", mkNode "d")],
   [mkEdge "e1" "a" "b", mkEdge "e2" "a" "c", mkEdge "e3" "b" "d", mkEdge "e4" "c" "d"]⟩

/-- The chain a→b→c. -/
def chainGraph : WorkflowGraph :=
  ⟨[("a", mkNode "a"), ("b", mkNode "b"), ("c", mkNode "c")],
   [mkEdge "e1" "a" "b", mkEdge "e2" "b" "c"]⟩

/-- An environment in which node `a`'s task fails and every other task
succeeds, with no cancellation. -/
def chainEnv : ExecEnv :=
  ⟨fun n => if n = "a" then .err "agent failed" else .ok (some "done"), none⟩

/-- The single node graph `a`. -/
def singleGraph : WorkflowGraph :=
  ⟨[("a", mkNode "a")], []⟩

/-- Cancellation delivered while level 0 is in flight; outcomes never reached.
Used on `singleGraph` (one level) for the C6 counterexample. -/
def cancelEnv : ExecEnv :=
  ⟨fun _ => .ok (some "done"), some 0⟩

/-- Two independent nodes in two levels (a at level 0, b at level 1). -/
def twoLevelGraph : WorkflowGraph :=
  ⟨[("a", mkNode "a"), ("b", mkNode "b")], [mkEdge "e1" "a" "b"]⟩

/-- All tasks succeed; cancellation during level 0. -/
def cancelEnvSucceeding : ExecEnv :=
  ⟨fun _ => .ok (some "done"), some 0⟩

/-- Every task fails; no cancellation. -/
def failEnv : ExecEnv :=
  ⟨fun _ => .err "agent failed", none⟩

/-- The enhanced environment with `Always` conditions in which node `a`
fails. -/
def chainEnvEnh : EnhancedEnv :=
  ⟨fun n => if n = "a" then .err "agent failed" else .ok (some "done"),
   fun _ _ _ => true, fun _ _ _ => "", none⟩

/-- `test_priority_queue`'s tasks (resources.rs): one Low, one Critical, one
Normal task queued in this order. -/
def lowTask : QueuedTask :=
  ⟨1, 1, "low", "implementer", .Low, 0⟩

def criticalTask : QueuedTask :=
  ⟨2, 1, "critical", "implementer", .Critical, 1⟩

def normalTask : QueuedTask :=
  ⟨3, 1, "normal", "implementer", .Normal, 2⟩

/-- A graph JSON input whose two node entries share the id `"a"`. -/
def dupIdInput : GraphJson :=
  ⟨some [⟨"a", "first", "implementer", none, none⟩,
         ⟨"a", "second", "tester", none, none⟩],
   some []⟩

/-- A completed execution snapshot with one node, for the checkpoint
counterexample. -/
def exampleExecState : WorkflowExecutionState :=
  ⟨7, 0, 3, .Running,
   [("a", { node_id := "a", status := .Completed, agent_id := some 4,
            progress := 100, started_at := some 1, completed_at := some 2,
            output := some "result", error := none })],
   [["a"]], 1⟩

/-- The matching execution context holding one collected output for node
`"a"` and one variable. -/
def exampleContext : ExecutionContext :=
  ⟨7, 3, "build it",
   [("a", [⟨4, "a", "implementer", .Text "result", 2, []⟩])],
   [("k", .str "v")], [], 1⟩

/-- The empty parsed graph. -/
def emptyGraph : WorkflowGraph :=
  ⟨[], []⟩

/-! ## Event classification helpers (used to state the executor lemmas) -/

/-- Whether the environment makes node `n`'s task fail (absent
cancellation). -/
def taskFails (env : ExecEnv) (n : String) : Bool :=
  match env.result n with
  | .err _ => true
  | .ok _ => false

/-- The level index carried by a `LevelStarted`/`LevelCompleted` event. -/
def eventLevel : WorkflowEvent → Option Nat
  | .LevelStarted k _ => some k
  | .LevelCompleted k => some k
  | _ => none

/-- The three terminal events of an execution. -/
def isTerminalEv : WorkflowEvent → Bool
  | .ExecutionCompleted => true
  | .ExecutionFailed _ => true
  | .ExecutionCancelled => true
  | _ => false

/-! # Theorems -/

/-! ## C3 — node progress semantics -/

/-- C3 (counterexample): a node skipped from `Pending` has status `Skipped`
but progress `0`, refuting "progress = 100 iff status ∈ {Completed,
Skipped}"; it contributes 0, not 100, to the overall progress sum. -/
theorem skipped_progress_counterexample :
    ((NodeExecutionState.new "a").skip "Dependency failed" 0).status = .Skipped ∧
    ((NodeExecutionState.new "a").skip "Dependency failed" 0).progress = 0 ∧
    ¬ (((NodeExecutionState.new "a").skip "Dependency failed" 0).progress = 100 ↔
        (((NodeExecutionState.new "a").skip "Dependency failed" 0).status = .Completed ∨
         ((NodeExecutionState.new "a").skip "Dependency failed" 0).status = .Skipped)) ∧
    get_overall_progress [(NodeExecutionState.new "a").skip "Dependency failed" 0] = 0 := by
  decide

/-- C3 (amended): `complete` sets progress to 100 and status `Completed`;
`skip` sets status `Skipped` but leaves progress unchanged, so a node skipped
while still `Pending` keeps progress 0 and contributes 0 to the overall
progress sum. -/
theorem progress_semantics_amended (ns : NodeExecutionState) (output : Option String)
    (reason : String) (now : Nat) :
    ((ns.complete output now).progress = 100 ∧
     (ns.complete output now).status = .Completed) ∧
    ((ns.skip reason now).status = .Skipped ∧
     (ns.skip reason now).progress = ns.progress) ∧
    ((NodeExecutionState.new "a").skip reason now).progress = 0 ∧
    get_overall_progress [(NodeExecutionState.new "a").skip reason now] = 0 := by
  refine ⟨⟨rfl, rfl⟩, ⟨rfl, rfl⟩, rfl, ?_⟩
  simp [get_overall_progress, NodeExecutionState.skip, NodeExecutionState.new]

/-! ## C7 — priority queue ordering -/

/-- C7 (code bug): with the tasks of the module's own `test_priority_queue`
(one `Low`, one `Critical`, one `Normal`), `dequeue_task` pops the `Low`
task first: the `Ord` implementation reverses the priority comparison, so
the max-heap treats lower priority as greater (`cmp low critical = gt`).
The tie-break for equal priorities does order older `queued_at` first, as
the claim says. -/
theorem dequeue_task_pops_lowest_priority :
    dequeue_task [lowTask, criticalTask, normalTask] = some lowTask ∧
    queuedTaskCmp lowTask criticalTask = .gt ∧
    queuedTaskCmp { lowTask with priority := .Normal, queued_at := 0 }
      { criticalTask with priority := .Normal, queued_at := 5 } = .gt := by
  decide

/-! ## C5 — fallback strategies -/

/-- C5 (counterexample): with `FallbackStrategy::Skip` (and likewise
`UseDefault`), a node whose retries are exhausted (default config, four
timeout attempts) still ends failed with the final error — the node is not
skipped and no default value is substituted. -/
theorem fallback_skip_counterexample :
    runNodeRetryLoop .Skip (RetryState.new RetryConfig.default)
      [.waitErr "timeout", .waitErr "timeout", .waitErr "timeout", .waitErr "timeout"]
      = .failed "timeout" ∧
    runNodeRetryLoop (.UseDefault (.str "default")) (RetryState.new RetryConfig.default)
      [.waitErr "timeout", .waitErr "timeout", .waitErr "timeout", .waitErr "timeout"]
      = .failed "timeout" ∧
    runNodeRetryLoop .Skip (RetryState.new RetryConfig.default)
      [.waitErr "authentication failed"]
      = .failed "authentication failed" := by
  refine ⟨rfl, rfl, rfl⟩

/-- C5 (amended): the configured fallback strategy is never consulted — the
retry loop behaves identically for every strategy (all behave as
`FailWorkflow`), and an error whose retry decision is final (`NoRetry` or
`Exhausted`) always leaves the node failed with that error. -/
theorem fallback_never_applied :
    (∀ (fb : FallbackStrategy) (st : RetryState) (os : List AttemptOutcome),
      runNodeRetryLoop fb st os = runNodeRetryLoop .FailWorkflow st os) ∧
    (∀ (fb : FallbackStrategy) (st : RetryState) (e : String) (rest : List AttemptOutcome),
      (st.should_retry e).2.isFinal = true →
      runNodeRetryLoop fb st (.waitErr e :: rest) = .failed e) := by
  constructor
  · intro fb st os
    induction os generalizing st with
    | nil => rfl
    | cons o rest ih =>
      cases o with
      | spawnErr e =>
        simp only [runNodeRetryLoop]
        rcases h : st.should_retry e with ⟨st1, d⟩
        cases d <;> simp [ih]
      | waitOk output => rfl
      | waitErr e =>
        simp only [runNodeRetryLoop]
        rcases h : st.should_retry e with ⟨st1, d⟩
        cases d <;> simp [ih]
  · intro fb st e rest hfinal
    simp only [runNodeRetryLoop]
    rcases h : st.should_retry e with ⟨st1, d⟩
    cases d with
    | Retry a => rw [h] at hfinal; simp [RetryDecision.isFinal] at hfinal
    | NoRetry r => rfl
    | Exhausted t => rfl

/-- C5 (witness): the amended theorem applied to the `Skip` strategy at a
non-retryable error. -/
theorem fallback_never_applied_witness :
    ((RetryState.new RetryConfig.default).should_retry "authentication failed").2.isFinal
      = true ∧
    runNodeRetryLoop .Skip (RetryState.new RetryConfig.default)
      [.waitErr "authentication failed"] = .failed "authentication failed" :=
  ⟨by decide, fallback_never_applied.2 .Skip (RetryState.new RetryConfig.default)
    "authentication failed" [] (by decide)⟩

/-! ## C4 — checkpoint round-trip -/

/-- C4 (counterexample): for an execution whose context holds a collected
output, the checkpoint written by `create_checkpoint` and read back by the
manager carries an empty outputs map — the stored per-node output sequences
are not reproduced. -/
theorem checkpoint_outputs_counterexample :
    CheckpointManager.load_latest
        (CheckpointManager.save [] (create_checkpoint exampleExecState exampleContext 0 9 5)) 7
      = some (create_checkpoint exampleExecState exampleContext 0 9 5) ∧
    (create_checkpoint exampleExecState exampleContext 0 9 5).outputs = [] ∧
    exampleContext.outputs ≠ [] ∧
    (create_checkpoint exampleExecState exampleContext 0 9 5).outputs
      ≠ exampleContext.outputs := by
  refine ⟨rfl, rfl, by decide, by decide⟩

/-- C4 (amended): saving a checkpoint and loading the latest one for the
execution returns exactly the saved checkpoint; the checkpoint reproduces
the execution levels, the variable map, and every node state's status,
progress, agent id, timestamps, output and error (with the retry log emptied)
— but its outputs map is always written empty, so the collected per-node
output sequences are only reproduced when there are none. -/
theorem checkpoint_roundtrip_amended (state : WorkflowExecutionState)
    (context : ExecutionContext) (lvl fresh now : Nat) :
    CheckpointManager.load_latest
        (CheckpointManager.save [] (create_checkpoint state context lvl fresh now))
        state.execution_id
      = some (create_checkpoint state context lvl fresh now) ∧
    (create_checkpoint state context lvl fresh now).execution_levels
      = state.execution_levels ∧
    (create_checkpoint state context lvl fresh now).vars = context.vars ∧
    (create_checkpoint state context lvl fresh now).node_states.map
        (fun p => (p.1, p.2.status, p.2.progress, p.2.agent_id, p.2.started_at,
                   p.2.completed_at, p.2.output, p.2.error))
      = state.node_states.map
        (fun p => (p.1, p.2.status, p.2.progress, p.2.agent_id, p.2.started_at,
                   p.2.completed_at, p.2.output, p.2.error)) ∧
    (create_checkpoint state context lvl fresh now).outputs = [] := by
  refine ⟨?_, rfl, rfl, ?_, rfl⟩
  · simp [CheckpointManager.save, CheckpointManager.load_latest, create_checkpoint]
  · simp [create_checkpoint]

/-! ## C10 — empty graph rejected before any effect -/

/-- C10: a parsed graph with zero nodes makes `execute` return the
`InvalidFormat` graph error "Workflow graph has no nodes" and
`execute_enhanced` return the same message as a string error, in both cases
with no execution record inserted, no execution id allocated and no event
emitted. -/
theorem empty_graph_rejected_before_effects (g : WorkflowGraph) (h : g.nodes = []) :
    WorkflowExecutor.execute g =
      (.error (.GraphError (.InvalidFormat "Workflow graph has no nodes")),
       ⟨false, false, []⟩) ∧
    execute_enhanced g = (.error "Workflow graph has no nodes", ⟨false, false, []⟩) := by
  have he : g.is_empty = true := by
    simp [WorkflowGraph.is_empty, h]
  constructor
  · simp [WorkflowExecutor.execute, he]
  · simp [execute_enhanced, he]

/-- C10 (witness): the theorem applied to the empty graph. -/
theorem empty_graph_rejected_before_effects_witness :
    emptyGraph.nodes = [] ∧
    (WorkflowExecutor.execute emptyGraph =
      (.error (.GraphError (.InvalidFormat "Workflow graph has no nodes")),
       ⟨false, false, []⟩) ∧
     execute_enhanced emptyGraph =
      (.error "Workflow graph has no nodes", ⟨false, false, []⟩)) :=
  ⟨rfl, empty_graph_rejected_before_effects emptyGraph rfl⟩

/-! ## Lemmas about the node-state map -/

theorem updateState_find_pred (k k' : String) (f : NodeExecutionState → NodeExecutionState) :
    ((fun p : String × NodeExecutionState => p.1 == k') ∘
      (fun p => if p.1 == k then (p.1, f p.2) else p)) =
    (fun p : String × NodeExecutionState => p.1 == k') := by
  funext p
  simp only [Function.comp]
  split <;> rfl

theorem lookupState_updateState_self (m : List (String × NodeExecutionState)) (k : String)
    (f : NodeExecutionState → NodeExecutionState) :
    lookupState (updateState m k f) k = (lookupState m k).map f := by
  unfold lookupState updateState
  rw [List.find?_map, updateState_find_pred k k f]
  cases hfind : m.find? (fun p => p.1 == k) with
  | none => rfl
  | some p =>
    have hp := List.find?_some hfind
    simp only at hp
    have he : p.1 = k := by simpa using hp
    simp [he]

theorem lookupState_updateState_ne (m : List (String × NodeExecutionState)) (k k' : String)
    (f : NodeExecutionState → NodeExecutionState) (h : k' ≠ k) :
    lookupState (updateState m k f) k' = lookupState m k' := by
  unfold lookupState updateState
  rw [List.find?_map, updateState_find_pred k k' f]
  cases hfind : m.find? (fun p => p.1 == k') with
  | none => rfl
  | some p =>
    have hp := List.find?_some hfind
    simp only at hp
    have he : p.1 = k' := by simpa using hp
    have hne : ¬ p.1 = k := by rw [he]; exact h
    simp [hne]

/-! ## Lemmas about the skip fold of the base level loop -/

theorem foldl_skipNode_failed (ss : List String) :
    ∀ st : ExecSt, (ss.foldl skipNode st).failed = st.failed := by
  induction ss with
  | nil => intro st; rfl
  | cons n t ih => intro st; rw [List.foldl_cons, ih]; rfl

theorem foldl_skipNode_killed (ss : List String) :
    ∀ st : ExecSt, (ss.foldl skipNode st).killed = st.killed := by
  induction ss with
  | nil => intro st; rfl
  | cons n t ih => intro st; rw [List.foldl_cons, ih]; rfl

theorem foldl_skipNode_events (ss : List String) :
    ∀ st : ExecSt, (ss.foldl skipNode st).events =
      st.events ++ ss.map (fun n => WorkflowEvent.NodeSkipped n "Dependency failed") := by
  induction ss with
  | nil => intro st; simp
  | cons n t ih => intro st; rw [List.foldl_cons, ih]; simp [skipNode]

theorem foldl_skipNode_lookup_not_mem (ss : List String) :
    ∀ (st : ExecSt) (k : String), k ∉ ss →
      lookupState (ss.foldl skipNode st).states k = lookupState st.states k := by
  induction ss with
  | nil => intro st k _; rfl
  | cons n t ih =>
    intro st k hk
    have hkt : k ∉ t := fun h => hk (List.mem_cons_of_mem _ h)
    have hkn : k ≠ n := fun h => hk (by rw [h]; exact List.mem_cons_self _ _)
    rw [List.foldl_cons, ih _ _ hkt]
    have hstates : (skipNode st n).states
        = updateState st.states n (fun ns => ns.skip "Dependency failed" 0) := rfl
    rw [hstates]
    exact lookupState_updateState_ne _ _ _ _ hkn

theorem foldl_skipNode_lookup_mem (ss : List String) :
    ∀ (st : ExecSt) (k : String), k ∈ ss →
      (∃ s0, lookupState st.states k = some s0) →
      ∃ s, lookupState (ss.foldl skipNode st).states k = some s ∧
        s.status = .Skipped ∧ s.error = some "Dependency failed" := by
  induction ss with
  | nil => intro st k hk; exact absurd hk (List.not_mem_nil k)
  | cons n t ih =>
    intro st k hk hex
    obtain ⟨s0, hs0⟩ := hex
    rw [List.foldl_cons]
    have hstates : (skipNode st n).states
        = updateState st.states n (fun ns => ns.skip "Dependency failed" 0) := rfl
    by_cases hkt : k ∈ t
    · refine ih _ _ hkt ?_
      by_cases hkn : k = n
      · subst hkn
        refine ⟨s0.skip "Dependency failed" 0, ?_⟩
        rw [hstates, lookupState_updateState_self, hs0]; rfl
      · refine ⟨s0, ?_⟩
        rw [hstates, lookupState_updateState_ne _ _ _ _ hkn]
        exact hs0
    · have hkn : k = n := by
        rcases List.mem_cons.mp hk with h | h
        · exact h
        · exact absurd h hkt
      subst hkn
      rw [foldl_skipNode_lookup_not_mem t _ _ hkt, hstates,
        lookupState_updateState_self, hs0]
      exact ⟨_, rfl, rfl, rfl⟩

/-! ## Lemmas about the dispatch fold of the base level loop -/

theorem dispatchNode_failed (env : ExecEnv) (idx : Nat) (st : ExecSt) (n : String) :
    (dispatchNode env idx st n).failed =
      st.failed ++ (if env.cancelDuring = some idx then [n]
                    else if taskFails env n then [n] else []) := by
  unfold dispatchNode taskFails
  by_cases hc : env.cancelDuring = some idx
  · simp [hc]
  · simp only [hc, if_false]
    cases henv : env.result n <;> simp [henv]

theorem dispatchNode_killed (env : ExecEnv) (idx : Nat) (st : ExecSt) (n : String) :
    (dispatchNode env idx st n).killed =
      st.killed ++ (if env.cancelDuring = some idx then [n] else []) := by
  unfold dispatchNode
  by_cases hc : env.cancelDuring = some idx
  · simp [hc]
  · simp only [hc, if_false]
    cases henv : env.result n <;> simp [henv]

theorem dispatchNode_events (env : ExecEnv) (idx : Nat) (st : ExecSt) (n : String) :
    (dispatchNode env idx st n).events =
      st.events ++ [WorkflowEvent.NodeStarted n] ++
        (if env.cancelDuring = some idx then [WorkflowEvent.NodeFailed n "Execution cancelled"]
         else match env.result n with
           | .ok _ => [WorkflowEvent.NodeCompleted n]
           | .err e => [WorkflowEvent.NodeFailed n e]) := by
  unfold dispatchNode
  by_cases hc : env.cancelDuring = some idx
  · simp [hc]
  · simp only [hc, if_false]
    cases henv : env.result n <;> simp [henv]

theorem foldl_dispatchNode_failed (env : ExecEnv) (idx : Nat) (rs : List String) :
    ∀ st : ExecSt, (rs.foldl (dispatchNode env idx) st).failed =
      st.failed ++ (if env.cancelDuring = some idx then rs else rs.filter (taskFails env)) := by
  induction rs with
  | nil => intro st; simp
  | cons n t ih =>
    intro st
    rw [List.foldl_cons, ih, dispatchNode_failed]
    by_cases hc : env.cancelDuring = some idx
    · simp [hc]
    · simp only [hc, if_false]
      by_cases hf : taskFails env n <;> simp [hf, List.filter_cons]

theorem foldl_dispatchNode_killed (env : ExecEnv) (idx : Nat) (rs : List String) :
    ∀ st : ExecSt, (rs.foldl (dispatchNode env idx) st).killed =
      st.killed ++ (if env.cancelDuring = some idx then rs else []) := by
  induction rs with
  | nil => intro st; simp
  | cons n t ih =>
    intro st
    rw [List.foldl_cons, ih, dispatchNode_killed]
    by_cases hc : env.cancelDuring = some idx <;> simp [hc]

theorem foldl_dispatchNode_events_tail (env : ExecEnv) (idx : Nat) (rs : List String) :
    ∀ st : ExecSt, ∃ tail, (rs.foldl (dispatchNode env idx) st).events = st.events ++ tail ∧
      ∀ e ∈ tail, eventLevel e = none ∧ isTerminalEv e = false := by
  induction rs with
  | nil => intro st; exact ⟨[], by simp, by simp⟩
  | cons n t ih =>
    intro st
    obtain ⟨tail, htail, hcls⟩ := ih (dispatchNode env idx st n)
    rw [List.foldl_cons] at *
    refine ⟨([WorkflowEvent.NodeStarted n] ++
        (if env.cancelDuring = some idx then [WorkflowEvent.NodeFailed n "Execution cancelled"]
         else match env.result n with
           | .ok _ => [WorkflowEvent.NodeCompleted n]
           | .err e => [WorkflowEvent.NodeFailed n e])) ++ tail, ?_, ?_⟩
    · rw [htail, dispatchNode_events]; simp
    · intro e he
      rcases List.mem_append.mp he with he | he
      · rcases List.mem_append.mp he with he | he
        · simp at he; subst he; exact ⟨rfl, rfl⟩
        · by_cases hc : env.cancelDuring = some idx
          · simp [hc] at he; subst he; exact ⟨rfl, rfl⟩
          · simp only [hc, if_false] at he
            cases henv : env.result n <;> rw [henv] at he <;> simp at he <;>
              subst he <;> exact ⟨rfl, rfl⟩
      · exact hcls e he

theorem foldl_dispatchNode_events_mono (env : ExecEnv) (idx : Nat) (rs : List String)
    (st : ExecSt) : ∃ tail, (rs.foldl (dispatchNode env idx) st).events = st.events ++ tail := by
  obtain ⟨tail, h, _⟩ := foldl_dispatchNode_events_tail env idx rs st
  exact ⟨tail, h⟩

theorem foldl_dispatchNode_cancel_event (env : ExecEnv) (idx : Nat) (rs : List String)
    (hc : env.cancelDuring = some idx) :
    ∀ (st : ExecSt) (n : String), n ∈ rs →
      WorkflowEvent.NodeFailed n "Execution cancelled" ∈
        (rs.foldl (dispatchNode env idx) st).events := by
  induction rs with
  | nil => intro st n hn; exact absurd hn (List.not_mem_nil n)
  | cons m t ih =>
    intro st n hn
    rw [List.foldl_cons]
    rcases List.mem_cons.mp hn with h | h
    · subst h
      obtain ⟨tail, htail⟩ := foldl_dispatchNode_events_mono env idx t (dispatchNode env idx st n)
      rw [htail, dispatchNode_events, hc]
      simp
    · exact ih _ _ h

/-- The status a dispatched node ends the level with. -/
theorem dispatchNode_lookup_self (env : ExecEnv) (idx : Nat) (st : ExecSt) (n : String) :
    lookupState (dispatchNode env idx st n).states n =
      (lookupState st.states n).map (fun ns =>
        if env.cancelDuring = some idx then ((ns.start 0 0).fail "Execution cancelled" 0)
        else match env.result n with
          | .ok output => ((ns.start 0 0).complete output 0)
          | .err e => ((ns.start 0 0).fail e 0)) := by
  unfold dispatchNode
  by_cases hc : env.cancelDuring = some idx
  · simp only [hc, if_true, if_pos rfl]
    rw [lookupState_updateState_self, lookupState_updateState_self]
    cases lookupState st.states n <;> simp [hc]
  · simp only [hc, if_false]
    cases henv : env.result n
    · simp only
      rw [lookupState_updateState_self, lookupState_updateState_self]
      cases lookupState st.states n <;> simp [hc, henv]
    · simp only
      rw [lookupState_updateState_self, lookupState_updateState_self]
      cases lookupState st.states n <;> simp [hc, henv]

theorem dispatchNode_lookup_ne (env : ExecEnv) (idx : Nat) (st : ExecSt) (n k : String)
    (h : k ≠ n) :
    lookupState (dispatchNode env idx st n).states k = lookupState st.states k := by
  unfold dispatchNode
  by_cases hc : env.cancelDuring = some idx
  · rw [if_pos hc]
    simp only
    rw [lookupState_updateState_ne _ _ _ _ h, lookupState_updateState_ne _ _ _ _ h]
  · rw [if_neg hc]
    cases henv : env.result n <;> simp only <;>
      rw [lookupState_updateState_ne _ _ _ _ h, lookupState_updateState_ne _ _ _ _ h]

theorem foldl_dispatchNode_lookup_not_mem (env : ExecEnv) (idx : Nat) (rs : List String) :
    ∀ (st : ExecSt) (k : String), k ∉ rs →
      lookupState (rs.foldl (dispatchNode env idx) st).states k = lookupState st.states k := by
  induction rs with
  | nil => intro st k _; rfl
  | cons n t ih =>
    intro st k hk
    have hkt : k ∉ t := fun h => hk (List.mem_cons_of_mem _ h)
    have hkn : k ≠ n := fun h => hk (by rw [h]; exact List.mem_cons_self _ _)
    rw [List.foldl_cons, ih _ _ hkt]
    exact dispatchNode_lookup_ne env idx st n k hkn

theorem foldl_dispatchNode_lookup_mem (env : ExecEnv) (idx : Nat) (rs : List String) :
    ∀ (st : ExecSt) (k : String), k ∈ rs →
      (∃ s0, lookupState st.states k = some s0) →
      ∃ s, lookupState (rs.foldl (dispatchNode env idx) st).states k = some s ∧
        s.status = (if env.cancelDuring = some idx then .Failed
          else match env.result k with
            | .ok _ => NodeExecutionStatus.Completed
            | .err _ => NodeExecutionStatus.Failed) := by
  induction rs with
  | nil => intro st k hk; exact absurd hk (List.not_mem_nil k)
  | cons n t ih =>
    intro st k hk hex
    obtain ⟨s0, hs0⟩ := hex
    rw [List.foldl_cons]
    by_cases hkt : k ∈ t
    · refine ih _ _ hkt ?_
      by_cases hkn : k = n
      · subst hkn
        refine ⟨(if env.cancelDuring = some idx then ((s0.start 0 0).fail "Execution cancelled" 0)
          else match env.result k with
            | .ok output => ((s0.start 0 0).complete output 0)
            | .err e => ((s0.start 0 0).fail e 0)), ?_⟩
        rw [dispatchNode_lookup_self, hs0]
        rfl
      · exact ⟨s0, by rw [dispatchNode_lookup_ne _ _ _ _ _ hkn]; exact hs0⟩
    · have hkn : k = n := by
        rcases List.mem_cons.mp hk with h | h
        · exact h
        · exact absurd h hkt
      subst hkn
      rw [foldl_dispatchNode_lookup_not_mem env idx t _ _ hkt, dispatchNode_lookup_self, hs0]
      by_cases hc : env.cancelDuring = some idx
      · exact ⟨_, rfl, by simp [hc, NodeExecutionState.fail, NodeExecutionState.start]⟩
      · cases henv : env.result k
        · exact ⟨_, rfl, by
            simp [hc, henv, NodeExecutionState.complete, NodeExecutionState.start]⟩
        · exact ⟨_, rfl, by
            simp [hc, henv, NodeExecutionState.fail, NodeExecutionState.start]⟩

/-! ## Lemmas about one iteration of the base level loop -/

theorem processOneLevel_failed (g : WorkflowGraph) (env : ExecEnv) (idx : Nat)
    (level : List String) (st : ExecSt) :
    (processOneLevel g env idx level st).failed =
      st.failed ++ (if env.cancelDuring = some idx
        then level.filter (fun n => !(hasFailedDep g st.failed n))
        else (level.filter (fun n => !(hasFailedDep g st.failed n))).filter (taskFails env)) := by
  by_cases h : (level.filter (fun n => !(hasFailedDep g st.failed n))).isEmpty
  · have hnil : level.filter (fun n => !(hasFailedDep g st.failed n)) = [] := by
      simpa using h
    simp [processOneLevel, h, hnil, foldl_skipNode_failed]
  · simp only [processOneLevel, h, Bool.false_eq_true, if_false]
    rw [foldl_dispatchNode_failed]
    have h1 : ((level.filter (fun n => !(hasFailedDep g st.failed n))).foldl skipNode
        st).failed = st.failed := by
      exact foldl_skipNode_failed _ _
    simp only
    rw [foldl_skipNode_failed]

theorem processOneLevel_killed (g : WorkflowGraph) (env : ExecEnv) (idx : Nat)
    (level : List String) (st : ExecSt) :
    (processOneLevel g env idx level st).killed =
      st.killed ++ (if env.cancelDuring = some idx
        then level.filter (fun n => !(hasFailedDep g st.failed n)) else []) := by
  by_cases h : (level.filter (fun n => !(hasFailedDep g st.failed n))).isEmpty
  · have hnil : level.filter (fun n => !(hasFailedDep g st.failed n)) = [] := by
      simpa using h
    simp [processOneLevel, h, hnil, foldl_skipNode_killed]
  · simp only [processOneLevel, h, Bool.false_eq_true, if_false]
    rw [foldl_dispatchNode_killed]
    simp only
    rw [foldl_skipNode_killed]

theorem processOneLevel_lookup_not_mem (g : WorkflowGraph) (env : ExecEnv) (idx : Nat)
    (level : List String) (st : ExecSt) (k : String) (hk : k ∉ level) :
    lookupState (processOneLevel g env idx level st).states k = lookupState st.states k := by
  have hks : k ∉ level.filter (fun n => hasFailedDep g st.failed n) :=
    fun h => hk (List.mem_of_mem_filter h)
  have hkr : k ∉ level.filter (fun n => !(hasFailedDep g st.failed n)) :=
    fun h => hk (List.mem_of_mem_filter h)
  by_cases h : (level.filter (fun n => !(hasFailedDep g st.failed n))).isEmpty
  · simp only [processOneLevel, h, if_true]
    exact foldl_skipNode_lookup_not_mem _ _ _ hks
  · simp only [processOneLevel, h, Bool.false_eq_true, if_false]
    rw [foldl_dispatchNode_lookup_not_mem env idx _ _ _ hkr]
    simp only
    exact foldl_skipNode_lookup_not_mem _ _ _ hks

/-- A level whose run-set is empty only emits the `NodeSkipped` events of its
(fully skipped) nodes: no `LevelStarted`, no `LevelCompleted`, no
`ProgressUpdate`. -/
theorem processOneLevel_events_empty_run (g : WorkflowGraph) (env : ExecEnv) (idx : Nat)
    (level : List String) (st : ExecSt)
    (h : level.filter (fun n => !(hasFailedDep g st.failed n)) = []) :
    (processOneLevel g env idx level st).events =
      st.events ++ level.map (fun n => WorkflowEvent.NodeSkipped n "Dependency failed") := by
  have hisEmpty : (level.filter (fun n => !(hasFailedDep g st.failed n))).isEmpty = true := by
    simp [h]
  have hall : ∀ n ∈ level, hasFailedDep g st.failed n = true := by
    intro n hn
    have := List.filter_eq_nil_iff.mp h n hn
    simpa using this
  have hskip : level.filter (fun n => hasFailedDep g st.failed n) = level :=
    List.filter_eq_self.mpr hall
  simp only [processOneLevel, hisEmpty, if_true]
  rw [hskip, foldl_skipNode_events]

/-- When the run-set of a level is nonempty, its `LevelCompleted` event is
emitted. -/
theorem processOneLevel_levelCompleted_mem (g : WorkflowGraph) (env : ExecEnv) (idx : Nat)
    (level : List String) (st : ExecSt)
    (h : (level.filter (fun n => !(hasFailedDep g st.failed n))).isEmpty = false) :
    WorkflowEvent.LevelCompleted idx ∈ (processOneLevel g env idx level st).events := by
  simp only [processOneLevel, h, Bool.false_eq_true, if_false]
  simp

/-- Classification of the events present after the dispatch fold: every event
is an old one, a `NodeStarted`, a `NodeCompleted` or a `NodeFailed`. -/
theorem foldl_dispatchNode_events_all (env : ExecEnv) (idx : Nat)
    (P : WorkflowEvent → Prop) (rs : List String) :
    ∀ st : ExecSt, (∀ e ∈ st.events, P e) →
    (∀ n, P (.NodeStarted n)) → (∀ n, P (.NodeCompleted n)) →
    (∀ n msg, P (.NodeFailed n msg)) →
    ∀ e ∈ (rs.foldl (dispatchNode env idx) st).events, P e := by
  induction rs with
  | nil => intro st hP _ _ _ e he; exact hP e he
  | cons n t ih =>
    intro st hP h5 h6 h7 e he
    rw [List.foldl_cons] at he
    refine ih _ ?_ h5 h6 h7 e he
    intro e2 he2
    rw [dispatchNode_events] at he2
    rcases List.mem_append.mp he2 with he2 | he2
    · rcases List.mem_append.mp he2 with he2 | he2
      · exact hP e2 he2
      · simp at he2; subst he2; exact h5 n
    · by_cases hc : env.cancelDuring = some idx
      · rw [if_pos hc] at he2; simp at he2; subst he2; exact h7 n _
      · rw [if_neg hc] at he2
        cases henv : env.result n <;> rw [henv] at he2 <;> simp at he2 <;> subst he2
        · exact h6 n
        · exact h7 n _

/-- Classification of the events present after one level iteration. -/
theorem processOneLevel_events_all (g : WorkflowGraph) (env : ExecEnv) (idx : Nat)
    (P : WorkflowEvent → Prop) (level : List String) (st : ExecSt)
    (hP : ∀ e ∈ st.events, P e)
    (h1 : ∀ n r, P (.NodeSkipped n r))
    (h2 : ∀ rs, P (.LevelStarted idx rs))
    (h3 : P (.LevelCompleted idx))
    (h4 : ∀ a b c, P (.ProgressUpdate a b c))
    (h5 : ∀ n, P (.NodeStarted n))
    (h6 : ∀ n, P (.NodeCompleted n))
    (h7 : ∀ n msg, P (.NodeFailed n msg)) :
    ∀ e ∈ (processOneLevel g env idx level st).events, P e := by
  have hskipAll : ∀ e ∈ ((level.filter (fun n => hasFailedDep g st.failed n)).foldl
      skipNode st).events, P e := by
    rw [foldl_skipNode_events]
    intro e he
    rcases List.mem_append.mp he with he | he
    · exact hP e he
    · obtain ⟨n, _, hn⟩ := List.mem_map.mp he
      subst hn; exact h1 n _
  by_cases h : (level.filter (fun n => !(hasFailedDep g st.failed n))).isEmpty
  · simp only [processOneLevel, h, if_true]
    exact hskipAll
  · simp only [processOneLevel, h, Bool.false_eq_true, if_false]
    intro e he
    rcases List.mem_append.mp he with he | he
    · refine foldl_dispatchNode_events_all env idx P _ _ ?_ h5 h6 h7 e he
      intro e2 he2
      rcases List.mem_append.mp he2 with he2 | he2
      · exact hskipAll e2 he2
      · simp at he2; subst he2; exact h2 _
    · rcases List.mem_cons.mp he with he | he
      · subst he; exact h3
      · simp at he; subst he; exact h4 _ _ _

/-- Classification of the events present after the level loop. -/
theorem runLevels_events_all (g : WorkflowGraph) (env : ExecEnv)
    (P : WorkflowEvent → Prop) :
    ∀ (ls : List (List String)) (idx : Nat) (st : ExecSt),
    (∀ e ∈ st.events, P e) →
    P .ExecutionCancelled →
    (∀ n r, P (.NodeSkipped n r)) →
    (∀ m rs, idx ≤ m → m < idx + ls.length → P (.LevelStarted m rs)) →
    (∀ m, idx ≤ m → m < idx + ls.length → P (.LevelCompleted m)) →
    (∀ a b c, P (.ProgressUpdate a b c)) →
    (∀ n, P (.NodeStarted n)) →
    (∀ n, P (.NodeCompleted n)) →
    (∀ n msg, P (.NodeFailed n msg)) →
    ∀ e ∈ (runLevels g env ls idx st).1.events, P e := by
  intro ls
  induction ls with
  | nil => intro idx st hP _ _ _ _ _ _ _ _ e he; exact hP e he
  | cons level rest ih =>
    intro idx st hP hEC h1 h2 h3 h4 h5 h6 h7 e he
    rw [runLevels] at he
    by_cases hc : cancelPending env idx = true
    · rw [if_pos hc] at he
      dsimp only at he
      rcases List.mem_append.mp he with he | he
      · exact hP e he
      · simp at he; subst he; exact hEC
    · rw [if_neg hc] at he
      refine ih (idx + 1) _ ?_ hEC h1 ?_ ?_ h4 h5 h6 h7 e he
      · refine processOneLevel_events_all g env idx P level st hP h1 ?_ ?_ h4 h5 h6 h7
        · exact fun rs => h2 idx rs (Nat.le_refl idx) (by rw [List.length_cons]; omega)
        · exact h3 idx (Nat.le_refl idx) (by rw [List.length_cons]; omega)
      · intro m rs hm1 hm2
        refine h2 m rs (Nat.le_of_succ_le hm1) ?_
        rw [List.length_cons]
        omega
      · intro m hm1 hm2
        refine h3 m (Nat.le_of_succ_le hm1) ?_
        rw [List.length_cons]
        omega

/-- Decomposing the level loop over an appended level list. -/
theorem runLevels_append (g : WorkflowGraph) (env : ExecEnv) (l1 : List (List String)) :
    ∀ (l2 : List (List String)) (idx : Nat) (st : ExecSt),
    runLevels g env (l1 ++ l2) idx st =
      (match runLevels g env l1 idx st with
       | (st1, true) => (st1, true)
       | (st1, false) => runLevels g env l2 (idx + l1.length) st1) := by
  induction l1 with
  | nil => intro l2 idx st; simp [runLevels]
  | cons level rest ih =>
    intro l2 idx st
    rw [List.cons_append, runLevels, runLevels]
    by_cases hc : cancelPending env idx = true
    · rw [if_pos hc, if_pos hc]
    · rw [if_neg hc, if_neg hc, ih]
      rcases hrec : runLevels g env rest (idx + 1) (processOneLevel g env idx level st) with
        ⟨st1, flag⟩
      cases flag <;> simp [List.length_cons, Nat.add_comm, Nat.add_assoc, Nat.add_left_comm]

/-- Without a cancellation signal the loop never returns early. -/
theorem runLevels_flag_of_none (g : WorkflowGraph) (env : ExecEnv)
    (hnone : env.cancelDuring = none) :
    ∀ (ls : List (List String)) (idx : Nat) (st : ExecSt),
    (runLevels g env ls idx st).2 = false := by
  intro ls
  induction ls with
  | nil => intro idx st; rfl
  | cons level rest ih =>
    intro idx st
    have hc : cancelPending env idx = false := by simp [cancelPending, hnone]
    rw [runLevels, if_neg (by simp [hc])]
    exact ih _ _

/-- Before the cancellation level is reached, the loop neither returns early
nor kills any agent. -/
theorem runLevels_before_cancel (g : WorkflowGraph) (env : ExecEnv) (kc : Nat)
    (hk : env.cancelDuring = some kc) :
    ∀ (ls : List (List String)) (idx : Nat) (st : ExecSt), idx + ls.length ≤ kc →
    (runLevels g env ls idx st).2 = false ∧
    (runLevels g env ls idx st).1.killed = st.killed := by
  intro ls
  induction ls with
  | nil => intro idx st _; exact ⟨rfl, rfl⟩
  | cons level rest ih =>
    intro idx st hle
    have hlen : (level :: rest).length = rest.length + 1 := List.length_cons level rest
    have hidx : idx < kc := by omega
    have hc : cancelPending env idx = false := by
      simp only [cancelPending, hk]
      simp
      omega
    rw [runLevels, if_neg (by simp [hc])]
    have hrest : (idx + 1) + rest.length ≤ kc := by omega
    obtain ⟨hf, hkill⟩ := ih (idx + 1) (processOneLevel g env idx level st) hrest
    refine ⟨hf, ?_⟩
    rw [hkill, processOneLevel_killed]
    have hne : ¬ env.cancelDuring = some idx := by
      rw [hk]
      intro hcontra
      have : kc = idx := by injection hcontra
      omega
    rw [if_neg hne, List.append_nil]

/-- A level iteration never emits `ExecutionCancelled`. -/
theorem processOneLevel_no_EC (g : WorkflowGraph) (env : ExecEnv) (idx : Nat)
    (level : List String) (st : ExecSt)
    (h : WorkflowEvent.ExecutionCancelled ∉ st.events) :
    WorkflowEvent.ExecutionCancelled ∉ (processOneLevel g env idx level st).events := by
  intro hmem
  have := processOneLevel_events_all g env idx
    (fun e => e ≠ WorkflowEvent.ExecutionCancelled) level st
    (fun e he heq => h (heq ▸ he))
    (by intro n r heq; cases heq)
    (by intro rs heq; cases heq)
    (by intro heq; cases heq)
    (by intro a b c heq; cases heq)
    (by intro n heq; cases heq)
    (by intro n heq; cases heq)
    (by intro n msg heq; cases heq)
    _ hmem
  exact this rfl

/-- The level loop emits `ExecutionCancelled` exactly once when it returns
early and never otherwise. -/
theorem runLevels_count_EC (g : WorkflowGraph) (env : ExecEnv) :
    ∀ (ls : List (List String)) (idx : Nat) (st : ExecSt),
    WorkflowEvent.ExecutionCancelled ∉ st.events →
    ((runLevels g env ls idx st).1.events.count WorkflowEvent.ExecutionCancelled
      = (if (runLevels g env ls idx st).2 = true then 1 else 0)) ∧
    ((runLevels g env ls idx st).2 = false →
      WorkflowEvent.ExecutionCancelled ∉ (runLevels g env ls idx st).1.events) := by
  intro ls
  induction ls with
  | nil =>
    intro idx st h
    exact ⟨by simpa using List.count_eq_zero.mpr h, fun _ => h⟩
  | cons level rest ih =>
    intro idx st h
    rw [runLevels]
    by_cases hc : cancelPending env idx = true
    · rw [if_pos hc]
      refine ⟨?_, by intro hfalse; cases hfalse⟩
      dsimp only
      rw [List.count_append]
      rw [List.count_eq_zero.mpr h]
      rfl
    · rw [if_neg hc]
      exact ih (idx + 1) _ (processOneLevel_no_EC g env idx level st h)

/-- The event stream only grows across the dispatch fold. -/
theorem foldl_dispatchNode_events_extend (env : ExecEnv) (idx : Nat) (rs : List String)
    (st : ExecSt) : st.events <+: (rs.foldl (dispatchNode env idx) st).events := by
  obtain ⟨t, ht⟩ := foldl_dispatchNode_events_mono env idx rs st
  exact ⟨t, ht.symm⟩

/-- The event stream only grows across one level iteration. -/
theorem processOneLevel_events_extend (g : WorkflowGraph) (env : ExecEnv) (idx : Nat)
    (level : List String) (st : ExecSt) :
    st.events <+: (processOneLevel g env idx level st).events := by
  by_cases h : (level.filter (fun n => !(hasFailedDep g st.failed n))).isEmpty
  · simp only [processOneLevel, h, if_true]
    rw [foldl_skipNode_events]
    exact List.prefix_append _ _
  · simp only [processOneLevel, h, Bool.false_eq_true, if_false]
    refine List.IsPrefix.trans ?_ (List.prefix_append _ _)
    refine List.IsPrefix.trans ?_ (foldl_dispatchNode_events_extend env idx _ _)
    refine List.IsPrefix.trans ?_ (List.prefix_append _ _)
    rw [foldl_skipNode_events]
    exact List.prefix_append _ _

/-- The event stream only grows across the level loop. -/
theorem runLevels_events_extend (g : WorkflowGraph) (env : ExecEnv) :
    ∀ (ls : List (List String)) (idx : Nat) (st : ExecSt),
    st.events <+: (runLevels g env ls idx st).1.events := by
  intro ls
  induction ls with
  | nil => intro idx st; exact List.prefix_refl _
  | cons level rest ih =>
    intro idx st
    rw [runLevels]
    by_cases hc : cancelPending env idx = true
    · rw [if_pos hc]
      exact List.prefix_append _ _
    · rw [if_neg hc]
      exact List.IsPrefix.trans (processOneLevel_events_extend g env idx level st) (ih _ _)

/-- A node of the run-set of the cancellation level has its `NodeFailed
"Execution cancelled"` event emitted during that level. -/
theorem processOneLevel_cancel_event (g : WorkflowGraph) (env : ExecEnv) (idx : Nat)
    (level : List String) (st : ExecSt) (n : String)
    (hc : env.cancelDuring = some idx)
    (hn : n ∈ level.filter (fun m => !(hasFailedDep g st.failed m))) :
    WorkflowEvent.NodeFailed n "Execution cancelled" ∈
      (processOneLevel g env idx level st).events := by
  have hnil : level.filter (fun m => !(hasFailedDep g st.failed m)) ≠ [] := by
    intro hnil
    rw [hnil] at hn
    exact absurd hn (List.not_mem_nil n)
  have hne : (level.filter (fun m => !(hasFailedDep g st.failed m))).isEmpty = false := by
    cases hfil : level.filter (fun m => !(hasFailedDep g st.failed m)) with
    | nil => exact absurd hfil hnil
    | cons a t => rfl
  simp only [processOneLevel, hne, Bool.false_eq_true, if_false]
  refine List.mem_append.mpr (Or.inl ?_)
  exact foldl_dispatchNode_cancel_event env idx _ hc _ n hn

/-- How a run that is cancelled during level `k` decomposes: the loop
processes levels `0..k` normally (the level-`k` tasks all return the
cancellation error), and then either returns at the top of level `k+1` with
`ExecutionCancelled` and status `Cancelled`, or — when `k` was the last
level — finishes with the ordinary `Completed`/`Failed` epilogue. -/
theorem run_execution_cancel_decomp (g : WorkflowGraph) (env : ExecEnv)
    (levels : List (List String)) (k : Nat)
    (hcd : env.cancelDuring = some k) (hk : k < levels.length) :
    (k + 1 < levels.length →
      run_execution g env levels =
        ({ processOneLevel g env k (levels.getD k []) (stateBeforeLevel g env levels k) with
            events := (processOneLevel g env k (levels.getD k [])
                (stateBeforeLevel g env levels k)).events
              ++ [WorkflowEvent.ExecutionCancelled] },
         ExecutionStatus.Cancelled)) ∧
    (k + 1 = levels.length →
      run_execution g env levels =
        (if (processOneLevel g env k (levels.getD k [])
              (stateBeforeLevel g env levels k)).failed.isEmpty then
          ({ processOneLevel g env k (levels.getD k []) (stateBeforeLevel g env levels k) with
              events := (processOneLevel g env k (levels.getD k [])
                  (stateBeforeLevel g env levels k)).events
                ++ [WorkflowEvent.ExecutionCompleted] },
           ExecutionStatus.Completed)
        else
          ({ processOneLevel g env k (levels.getD k []) (stateBeforeLevel g env levels k) with
              events := (processOneLevel g env k (levels.getD k [])
                  (stateBeforeLevel g env levels k)).events
                ++ [WorkflowEvent.ExecutionFailed
                    (processOneLevel g env k (levels.getD k [])
                      (stateBeforeLevel g env levels k)).failed] },
           ExecutionStatus.Failed))) := by
  have hlentake : (levels.take k).length = k := List.length_take_of_le (le_of_lt hk)
  have hflag0 := (runLevels_before_cancel g env k hcd (levels.take k) 0 (initSt levels)
    (by rw [hlentake]; omega)).1
  have htake : levels.take (k + 1) = levels.take k ++ [levels.getD k []] := by
    rw [List.getD_eq_getElem levels [] hk]
    exact (List.take_concat_get' levels k hk).symm
  have hstep1 : runLevels g env (levels.take (k + 1)) 0 (initSt levels)
      = (processOneLevel g env k (levels.getD k []) (stateBeforeLevel g env levels k),
         false) := by
    rw [htake, runLevels_append]
    rcases hpre : runLevels g env (levels.take k) 0 (initSt levels) with ⟨stk, flag⟩
    rw [hpre] at hflag0
    simp only at hflag0
    subst hflag0
    simp only
    rw [hlentake, Nat.zero_add, runLevels]
    have hcp : ¬ cancelPending env k = true := by
      simp [cancelPending, hcd]
    rw [if_neg hcp, runLevels]
    have hstk : stateBeforeLevel g env levels k = stk := by
      rw [stateBeforeLevel, hpre]
    rw [hstk]
  have hlentake1 : (levels.take (k + 1)).length = k + 1 :=
    List.length_take_of_le (by omega)
  constructor
  · intro hlt
    have hdrop : levels.drop (k + 1) = levels[k + 1] :: levels.drop (k + 2) :=
      List.drop_eq_getElem_cons hlt
    have hsplit := runLevels_append g env (levels.take (k + 1)) (levels.drop (k + 1)) 0
      (initSt levels)
    rw [List.take_append_drop] at hsplit
    have hloop : runLevels g env levels 0 (initSt levels)
        = ({ processOneLevel g env k (levels.getD k []) (stateBeforeLevel g env levels k) with
              events := (processOneLevel g env k (levels.getD k [])
                  (stateBeforeLevel g env levels k)).events
                ++ [WorkflowEvent.ExecutionCancelled] },
           true) := by
      rw [hsplit, hstep1]
      simp only
      rw [hlentake1, Nat.zero_add, hdrop, runLevels]
      have hcp : cancelPending env (k + 1) = true := by
        simp [cancelPending, hcd]
      rw [if_pos hcp]
    rw [run_execution, hloop]
  · intro heq
    have hdrop : levels.drop (k + 1) = [] := List.drop_eq_nil_of_le (by omega)
    have hsplit := runLevels_append g env (levels.take (k + 1)) (levels.drop (k + 1)) 0
      (initSt levels)
    rw [List.take_append_drop] at hsplit
    have hloop : runLevels g env levels 0 (initSt levels)
        = (processOneLevel g env k (levels.getD k []) (stateBeforeLevel g env levels k),
           false) := by
      rw [hsplit, hstep1]
      simp only
      rw [hdrop, runLevels]
    rw [run_execution, hloop]

/-- C6 (amended): when the cancellation signal arrives while level `k`'s
tasks are in flight, each node of that level's run-set has its agent killed
and its `NodeFailed "Execution cancelled"` event emitted (the task reports
the cancellation as node failure); `LevelCompleted` for level `k` is still
emitted whenever its run-set is nonempty; if a later level exists, the loop
stops at its top with status `Cancelled`, exactly one `ExecutionCancelled`
and no other terminal event — but when `k` is the last level no
`ExecutionCancelled` is ever emitted, the status is never `Cancelled`, and a
nonempty run-set makes the execution end `Failed`. -/
theorem cancellation_semantics_amended (g : WorkflowGraph) (env : ExecEnv)
    (levels : List (List String)) (k : Nat)
    (hcd : env.cancelDuring = some k) (hk : k < levels.length) :
    ((run_execution g env levels).1.killed = runSetAtLevel g env levels k) ∧
    (∀ n ∈ (run_execution g env levels).1.killed,
      WorkflowEvent.NodeFailed n "Execution cancelled"
        ∈ (run_execution g env levels).1.events) ∧
    (runSetAtLevel g env levels k ≠ [] →
      WorkflowEvent.LevelCompleted k ∈ (run_execution g env levels).1.events) ∧
    (k + 1 < levels.length →
      (run_execution g env levels).2 = .Cancelled ∧
      (run_execution g env levels).1.events.count WorkflowEvent.ExecutionCancelled = 1 ∧
      WorkflowEvent.ExecutionCompleted ∉ (run_execution g env levels).1.events ∧
      (∀ fs, WorkflowEvent.ExecutionFailed fs ∉ (run_execution g env levels).1.events)) ∧
    (k + 1 = levels.length →
      (run_execution g env levels).1.events.count WorkflowEvent.ExecutionCancelled = 0 ∧
      (run_execution g env levels).2 ≠ .Cancelled ∧
      (runSetAtLevel g env levels k ≠ [] → (run_execution g env levels).2 = .Failed)) := by
  obtain ⟨hdec1, hdec2⟩ := run_execution_cancel_decomp g env levels k hcd hk
  have hlentake : (levels.take k).length = k := List.length_take_of_le (le_of_lt hk)
  have hbefore := runLevels_before_cancel g env k hcd (levels.take k) 0 (initSt levels)
    (by rw [hlentake]; omega)
  have hkill0 : (stateBeforeLevel g env levels k).killed = [] := by
    rw [stateBeforeLevel, hbefore.2]
    rfl
  have hkill1 : (processOneLevel g env k (levels.getD k [])
      (stateBeforeLevel g env levels k)).killed = runSetAtLevel g env levels k := by
    rw [processOneLevel_killed, if_pos hcd, hkill0, List.nil_append, runSetAtLevel]
  have hfail1 : (processOneLevel g env k (levels.getD k [])
      (stateBeforeLevel g env levels k)).failed =
      (stateBeforeLevel g env levels k).failed ++ runSetAtLevel g env levels k := by
    rw [processOneLevel_failed, if_pos hcd, runSetAtLevel]
  have hEC0 : WorkflowEvent.ExecutionCancelled ∉ (stateBeforeLevel g env levels k).events := by
    rw [stateBeforeLevel]
    exact (runLevels_count_EC g env (levels.take k) 0 (initSt levels)
      (by intro hmem; exact absurd hmem (List.not_mem_nil _))).2 hbefore.1
  have hEC1 : WorkflowEvent.ExecutionCancelled ∉ (processOneLevel g env k (levels.getD k [])
      (stateBeforeLevel g env levels k)).events :=
    processOneLevel_no_EC g env k _ _ hEC0
  have hclsTerm : ∀ e ∈ (processOneLevel g env k (levels.getD k [])
      (stateBeforeLevel g env levels k)).events,
      e ≠ WorkflowEvent.ExecutionCompleted ∧
        ∀ fs, e ≠ WorkflowEvent.ExecutionFailed fs := by
    refine processOneLevel_events_all g env k
      (fun e => e ≠ WorkflowEvent.ExecutionCompleted ∧
        ∀ fs, e ≠ WorkflowEvent.ExecutionFailed fs) _ _ ?_ ?_ ?_ ?_ ?_ ?_ ?_ ?_
    · rw [stateBeforeLevel]
      refine runLevels_events_all g env _ (levels.take k) 0 (initSt levels) ?_ ?_ ?_ ?_ ?_ ?_ ?_ ?_ ?_
      · intro e he; exact absurd he (List.not_mem_nil _)
      · exact ⟨(by intro h; cases h), (by intro fs h; cases h)⟩
      · intro n r; exact ⟨(by intro h; cases h), (by intro fs h; cases h)⟩
      · intro m rs _ _; exact ⟨(by intro h; cases h), (by intro fs h; cases h)⟩
      · intro m _ _; exact ⟨(by intro h; cases h), (by intro fs h; cases h)⟩
      · intro a b c; exact ⟨(by intro h; cases h), (by intro fs h; cases h)⟩
      · intro n; exact ⟨(by intro h; cases h), (by intro fs h; cases h)⟩
      · intro n; exact ⟨(by intro h; cases h), (by intro fs h; cases h)⟩
      · intro n msg; exact ⟨(by intro h; cases h), (by intro fs h; cases h)⟩
    · intro n r; exact ⟨(by intro h; cases h), (by intro fs h; cases h)⟩
    · intro rs; exact ⟨(by intro h; cases h), (by intro fs h; cases h)⟩
    · exact ⟨(by intro h; cases h), (by intro fs h; cases h)⟩
    · intro a b c; exact ⟨(by intro h; cases h), (by intro fs h; cases h)⟩
    · intro n; exact ⟨(by intro h; cases h), (by intro fs h; cases h)⟩
    · intro n; exact ⟨(by intro h; cases h), (by intro fs h; cases h)⟩
    · intro n msg; exact ⟨(by intro h; cases h), (by intro fs h; cases h)⟩
  have hcancelev : ∀ n ∈ runSetAtLevel g env levels k,
      WorkflowEvent.NodeFailed n "Execution cancelled"
        ∈ (processOneLevel g env k (levels.getD k [])
            (stateBeforeLevel g env levels k)).events := by
    intro n hn
    exact processOneLevel_cancel_event g env k _ _ n hcd (by rw [runSetAtLevel] at hn; exact hn)
  have hlcmem : runSetAtLevel g env levels k ≠ [] →
      WorkflowEvent.LevelCompleted k ∈ (processOneLevel g env k (levels.getD k [])
        (stateBeforeLevel g env levels k)).events := by
    intro hne
    refine processOneLevel_levelCompleted_mem g env k _ _ ?_
    rw [runSetAtLevel] at hne
    cases hfil : (levels.getD k []).filter
        (fun n => !(hasFailedDep g (stateBeforeLevel g env levels k).failed n)) with
    | nil => exact absurd hfil hne
    | cons a t => rfl
  rcases Nat.lt_or_ge (k + 1) levels.length with hlt | hge
  · have hrun := hdec1 hlt
    rw [hrun]
    refine ⟨hkill1, ?_, ?_, ?_, ?_⟩
    · intro n hn
      simp only at hn
      rw [hkill1] at hn
      exact List.mem_append.mpr (Or.inl (hcancelev n hn))
    · intro hne
      exact List.mem_append.mpr (Or.inl (hlcmem hne))
    · intro _
      refine ⟨rfl, ?_, ?_, ?_⟩
      · simp only
        rw [List.count_append, List.count_eq_zero.mpr hEC1]
        rfl
      · intro hmem
        simp only at hmem
        rcases List.mem_append.mp hmem with hmem | hmem
        · exact (hclsTerm _ hmem).1 rfl
        · simp at hmem
      · intro fs hmem
        simp only at hmem
        rcases List.mem_append.mp hmem with hmem | hmem
        · exact (hclsTerm _ hmem).2 fs rfl
        · simp at hmem
    · intro heq; omega
  · have heq : k + 1 = levels.length := by omega
    have hrun := hdec2 heq
    rw [hrun]
    by_cases hfe : (processOneLevel g env k (levels.getD k [])
        (stateBeforeLevel g env levels k)).failed.isEmpty
    · rw [if_pos hfe] at *
      refine ⟨hkill1, ?_, ?_, ?_, ?_⟩
      · intro n hn
        simp only at hn
        rw [hkill1] at hn
        exact List.mem_append.mpr (Or.inl (hcancelev n hn))
      · intro hne
        exact List.mem_append.mpr (Or.inl (hlcmem hne))
      · intro hlt2; omega
      · intro _
        refine ⟨?_, (by intro h; cases h), ?_⟩
        · simp only
          rw [List.count_append, List.count_eq_zero.mpr hEC1]
          rfl
        · intro hne
          exfalso
          have : (processOneLevel g env k (levels.getD k [])
              (stateBeforeLevel g env levels k)).failed = [] := by
            cases hfl : (processOneLevel g env k (levels.getD k [])
                (stateBeforeLevel g env levels k)).failed with
            | nil => rfl
            | cons a t => rw [hfl] at hfe; cases hfe
          rw [hfail1] at this
          rcases List.append_eq_nil.mp this with ⟨_, h2⟩
          exact hne h2
    · rw [if_neg hfe] at *
      refine ⟨hkill1, ?_, ?_, ?_, ?_⟩
      · intro n hn
        simp only at hn
        rw [hkill1] at hn
        exact List.mem_append.mpr (Or.inl (hcancelev n hn))
      · intro hne
        exact List.mem_append.mpr (Or.inl (hlcmem hne))
      · intro hlt2; omega
      · intro _
        refine ⟨?_, (by intro h; cases h), fun _ => rfl⟩
        simp only
        rw [List.count_append, List.count_eq_zero.mpr hEC1]
        rfl

/-! ## Lemmas for the enhanced level loop -/

theorem foldl_skipNodeEnh_events (prs : List (String × String)) :
    ∀ st : EnhSt, (prs.foldl skipNodeEnh st).events =
      st.events ++ prs.map (fun nr => WorkflowEvent.NodeSkipped nr.1 nr.2) := by
  induction prs with
  | nil => intro st; simp
  | cons nr t ih => intro st; rw [List.foldl_cons, ih]; simp [skipNodeEnh]

/-- The enhanced loop behaves like the base loop on an all-skipped level:
only the `NodeSkipped` events (with their respective reasons) are emitted. -/
theorem processOneLevelEnh_events_empty_run (g : WorkflowGraph) (env : EnhancedEnv)
    (idx : Nat) (level : List String) (st : EnhSt)
    (h : (partitionLevelEnh g env st.failed st.statuses level).2 = []) :
    (processOneLevelEnh g env idx level st).events =
      st.events ++ (partitionLevelEnh g env st.failed st.statuses level).1.map
        (fun nr => WorkflowEvent.NodeSkipped nr.1 nr.2) := by
  have hisEmpty : (partitionLevelEnh g env st.failed st.statuses level).2.isEmpty = true := by
    rw [h]; rfl
  simp only [processOneLevelEnh, hisEmpty, if_true]
  rw [foldl_skipNodeEnh_events]

/-- With no cancellation pending, the enhanced loop proceeds directly from
one level to the next. -/
theorem runLevelsEnh_step (g : WorkflowGraph) (env : EnhancedEnv)
    (level : List String) (rest : List (List String)) (idx : Nat) (st : EnhSt)
    (hnone : env.cancelDuring = none) :
    runLevelsEnh g env (level :: rest) idx st =
      runLevelsEnh g env rest (idx + 1) (processOneLevelEnh g env idx level st) := by
  rw [runLevelsEnh]
  rw [if_neg (by simp [cancelPendingEnh, hnone])]

/-- C6 (counterexample): cancellation arriving during the last level.  On a
one-node graph with the cancel signal delivered while level 0 is in flight,
the run finishes with status `Failed` — not `Cancelled` —, still emits
`LevelCompleted 0` for the interrupted level, emits no `ExecutionCancelled`
event at all, records the killed node as a failure (`ExecutionFailed ["a"]`),
and reports the cancelled node with a `NodeFailed` event. -/
theorem cancellation_events_counterexample :
    (run_execution singleGraph cancelEnv [["a"]]).2 = .Failed ∧
    (run_execution singleGraph cancelEnv [["a"]]).2 ≠ .Cancelled ∧
    WorkflowEvent.LevelCompleted 0 ∈ (run_execution singleGraph cancelEnv [["a"]]).1.events ∧
    (run_execution singleGraph cancelEnv [["a"]]).1.events.count
      WorkflowEvent.ExecutionCancelled = 0 ∧
    WorkflowEvent.ExecutionFailed ["a"]
      ∈ (run_execution singleGraph cancelEnv [["a"]]).1.events ∧
    WorkflowEvent.NodeFailed "a" "Execution cancelled"
      ∈ (run_execution singleGraph cancelEnv [["a"]]).1.events := by
  decide

/-- C6 (witness): the amended cancellation theorem applied to a two-level
chain with cancellation during level 0. -/
theorem cancellation_semantics_amended_witness :
    cancelEnvSucceeding.cancelDuring = some 0 ∧
    0 < ([["a"], ["b"]] : List (List String)).length ∧
    (run_execution twoLevelGraph cancelEnvSucceeding [["a"], ["b"]]).1.killed
      = runSetAtLevel twoLevelGraph cancelEnvSucceeding [["a"], ["b"]] 0 :=
  ⟨rfl, by decide,
    (cancellation_semantics_amended twoLevelGraph cancelEnvSucceeding [["a"], ["b"]] 0 rfl
      (by decide)).1⟩

/-! ## C9 — a level with an empty run-set -/

/-- C9: when every node of level `k` is skipped (empty run-set), that level's
iteration appends exactly the `NodeSkipped` events of the level's nodes and
the loop continues to the next level; in the whole run no `LevelStarted` and
no `LevelCompleted` for level `k` is ever emitted, while the `NodeSkipped`
events are; the enhanced engine's level iteration does the same (with each
node's own skip reason) and likewise proceeds directly to the next level. -/
theorem empty_runset_level_events (g : WorkflowGraph) (env : ExecEnv)
    (levels : List (List String)) (k : Nat)
    (hnone : env.cancelDuring = none) (hk : k < levels.length)
    (hempty : runSetAtLevel g env levels k = []) :
    ((runLevels g env (levels.take (k + 1)) 0 (initSt levels)).1.events
      = (stateBeforeLevel g env levels k).events
        ++ (levels.getD k []).map
            (fun n => WorkflowEvent.NodeSkipped n "Dependency failed")) ∧
    ((runLevels g env (levels.take (k + 1)) 0 (initSt levels)).2 = false) ∧
    (∀ rs, WorkflowEvent.LevelStarted k rs ∉ (run_execution g env levels).1.events) ∧
    (WorkflowEvent.LevelCompleted k ∉ (run_execution g env levels).1.events) ∧
    (∀ n ∈ levels.getD k [], WorkflowEvent.NodeSkipped n "Dependency failed"
      ∈ (run_execution g env levels).1.events) ∧
    (∀ (env2 : EnhancedEnv) (idx2 : Nat) (level2 : List String)
        (rest2 : List (List String)) (st2 : EnhSt), env2.cancelDuring = none →
      (partitionLevelEnh g env2 st2.failed st2.statuses level2).2 = [] →
      ((processOneLevelEnh g env2 idx2 level2 st2).events =
        st2.events ++ (partitionLevelEnh g env2 st2.failed st2.statuses level2).1.map
          (fun nr => WorkflowEvent.NodeSkipped nr.1 nr.2)) ∧
      runLevelsEnh g env2 (level2 :: rest2) idx2 st2 =
        runLevelsEnh g env2 rest2 (idx2 + 1) (processOneLevelEnh g env2 idx2 level2 st2)) := by
  have hlentake : (levels.take k).length = k := List.length_take_of_le (le_of_lt hk)
  have hlentake1 : (levels.take (k + 1)).length = k + 1 := List.length_take_of_le (by omega)
  have htake : levels.take (k + 1) = levels.take k ++ [levels.getD k []] := by
    rw [List.getD_eq_getElem levels [] hk]
    exact (List.take_concat_get' levels k hk).symm
  have hflag0 : (runLevels g env (levels.take k) 0 (initSt levels)).2 = false :=
    runLevels_flag_of_none g env hnone _ _ _
  have hfilterEmpty : (levels.getD k []).filter
      (fun n => !(hasFailedDep g (stateBeforeLevel g env levels k).failed n)) = [] := by
    rw [runSetAtLevel] at hempty
    exact hempty
  have hstep1 : runLevels g env (levels.take (k + 1)) 0 (initSt levels)
      = (processOneLevel g env k (levels.getD k []) (stateBeforeLevel g env levels k),
         false) := by
    rw [htake, runLevels_append]
    rcases hpre : runLevels g env (levels.take k) 0 (initSt levels) with ⟨stk, flag⟩
    rw [hpre] at hflag0
    simp only at hflag0
    subst hflag0
    simp only
    rw [hlentake, Nat.zero_add, runLevels]
    rw [if_neg (by simp [cancelPending, hnone])]
    rw [runLevels]
    have hstk : stateBeforeLevel g env levels k = stk := by rw [stateBeforeLevel, hpre]
    rw [hstk]
  have hlevents : (processOneLevel g env k (levels.getD k [])
      (stateBeforeLevel g env levels k)).events
      = (stateBeforeLevel g env levels k).events
        ++ (levels.getD k []).map
            (fun n => WorkflowEvent.NodeSkipped n "Dependency failed") :=
    processOneLevel_events_empty_run g env k (levels.getD k [])
      (stateBeforeLevel g env levels k) hfilterEmpty
  have hsplit := runLevels_append g env (levels.take (k + 1)) (levels.drop (k + 1)) 0
    (initSt levels)
  rw [List.take_append_drop] at hsplit
  have hloop : runLevels g env levels 0 (initSt levels)
      = runLevels g env (levels.drop (k + 1)) (k + 1)
          (processOneLevel g env k (levels.getD k []) (stateBeforeLevel g env levels k)) := by
    rw [hsplit, hstep1]
    simp only
    rw [hlentake1, Nat.zero_add]
  rcases hfin : runLevels g env (levels.drop (k + 1)) (k + 1)
      (processOneLevel g env k (levels.getD k []) (stateBeforeLevel g env levels k)) with
    ⟨stL, flagL⟩
  have hflagL : flagL = false := by
    have h2 := runLevels_flag_of_none g env hnone (levels.drop (k + 1)) (k + 1)
      (processOneLevel g env k (levels.getD k []) (stateBeforeLevel g env levels k))
    rw [hfin] at h2
    exact h2
  subst hflagL
  have hPstk : ∀ e ∈ (stateBeforeLevel g env levels k).events,
      (∀ rs, e ≠ WorkflowEvent.LevelStarted k rs) ∧ e ≠ WorkflowEvent.LevelCompleted k := by
    rw [stateBeforeLevel]
    refine runLevels_events_all g env
      (fun e => (∀ rs, e ≠ WorkflowEvent.LevelStarted k rs) ∧
        e ≠ WorkflowEvent.LevelCompleted k)
      (levels.take k) 0 (initSt levels) ?_ ?_ ?_ ?_ ?_ ?_ ?_ ?_ ?_
    · intro e he; exact absurd he (List.not_mem_nil _)
    · exact ⟨(by intro rs h; cases h), (by intro h; cases h)⟩
    · intro n r; exact ⟨(by intro rs h; cases h), (by intro h; cases h)⟩
    · intro m rs hm1 hm2
      rw [hlentake, Nat.zero_add] at hm2
      refine ⟨?_, (by intro h; cases h)⟩
      intro rs2 h
      injection h with h1 h2
      omega
    · intro m hm1 hm2
      rw [hlentake, Nat.zero_add] at hm2
      refine ⟨(by intro rs h; cases h), ?_⟩
      intro h
      injection h with h1
      omega
    · intro a b c; exact ⟨(by intro rs h; cases h), (by intro h; cases h)⟩
    · intro n; exact ⟨(by intro rs h; cases h), (by intro h; cases h)⟩
    · intro n; exact ⟨(by intro rs h; cases h), (by intro h; cases h)⟩
    · intro n msg; exact ⟨(by intro rs h; cases h), (by intro h; cases h)⟩
  have hPstk1 : ∀ e ∈ (processOneLevel g env k (levels.getD k [])
      (stateBeforeLevel g env levels k)).events,
      (∀ rs, e ≠ WorkflowEvent.LevelStarted k rs) ∧ e ≠ WorkflowEvent.LevelCompleted k := by
    rw [hlevents]
    intro e he
    rcases List.mem_append.mp he with he | he
    · exact hPstk e he
    · obtain ⟨n, _, hn⟩ := List.mem_map.mp he
      subst hn
      exact ⟨(by intro rs h; cases h), (by intro h; cases h)⟩
  have hPstL : ∀ e ∈ stL.events,
      (∀ rs, e ≠ WorkflowEvent.LevelStarted k rs) ∧ e ≠ WorkflowEvent.LevelCompleted k := by
    have h2 := runLevels_events_all g env
      (fun e => (∀ rs, e ≠ WorkflowEvent.LevelStarted k rs) ∧
        e ≠ WorkflowEvent.LevelCompleted k)
      (levels.drop (k + 1)) (k + 1)
      (processOneLevel g env k (levels.getD k []) (stateBeforeLevel g env levels k))
      hPstk1
      ⟨(by intro rs h; cases h), (by intro h; cases h)⟩
      (fun n r => ⟨(by intro rs h; cases h), (by intro h; cases h)⟩)
      ?_ ?_
      (fun a b c => ⟨(by intro rs h; cases h), (by intro h; cases h)⟩)
      (fun n => ⟨(by intro rs h; cases h), (by intro h; cases h)⟩)
      (fun n => ⟨(by intro rs h; cases h), (by intro h; cases h)⟩)
      (fun n msg => ⟨(by intro rs h; cases h), (by intro h; cases h)⟩)
    · rw [hfin] at h2
      exact h2
    · intro m rs hm1 hm2
      refine ⟨?_, (by intro h; cases h)⟩
      intro rs2 h
      injection h with h1 h2
      omega
    · intro m hm1 hm2
      refine ⟨(by intro rs h; cases h), ?_⟩
      intro h
      injection h with h1
      omega
  have hskipmem : ∀ n ∈ levels.getD k [],
      WorkflowEvent.NodeSkipped n "Dependency failed" ∈ stL.events := by
    intro n hn
    have hmem1 : WorkflowEvent.NodeSkipped n "Dependency failed"
        ∈ (processOneLevel g env k (levels.getD k [])
            (stateBeforeLevel g env levels k)).events := by
      rw [hlevents]
      refine List.mem_append.mpr (Or.inr ?_)
      exact List.mem_map.mpr ⟨n, hn, rfl⟩
    have hpref := runLevels_events_extend g env (levels.drop (k + 1)) (k + 1)
      (processOneLevel g env k (levels.getD k []) (stateBeforeLevel g env levels k))
    rw [hfin] at hpref
    exact hpref.subset hmem1
  have hrunev : ∃ term, (run_execution g env levels).1.events = stL.events ++ [term] ∧
      (∀ rs, term ≠ WorkflowEvent.LevelStarted k rs) ∧
      term ≠ WorkflowEvent.LevelCompleted k := by
    rw [run_execution, hloop, hfin]
    dsimp only
    by_cases hfe : stL.failed.isEmpty
    · rw [if_pos hfe]
      exact ⟨WorkflowEvent.ExecutionCompleted, rfl,
        (by intro rs h; cases h), (by intro h; cases h)⟩
    · rw [if_neg hfe]
      exact ⟨WorkflowEvent.ExecutionFailed stL.failed, rfl,
        (by intro rs h; cases h), (by intro h; cases h)⟩
  obtain ⟨term, hterm, htermLS, htermLC⟩ := hrunev
  refine ⟨?_, ?_, ?_, ?_, ?_, ?_⟩
  · rw [hstep1]
    exact hlevents
  · rw [hstep1]
  · intro rs hmem
    rw [hterm] at hmem
    rcases List.mem_append.mp hmem with hmem | hmem
    · exact (hPstL _ hmem).1 rs rfl
    · simp at hmem
      exact htermLS rs hmem.symm
  · intro hmem
    rw [hterm] at hmem
    rcases List.mem_append.mp hmem with hmem | hmem
    · exact (hPstL _ hmem).2 rfl
    · simp at hmem
      exact htermLC hmem.symm
  · intro n hn
    rw [hterm]
    exact List.mem_append.mpr (Or.inl (hskipmem n hn))
  · intro env2 idx2 level2 rest2 st2 hnone2 hpart
    exact ⟨processOneLevelEnh_events_empty_run g env2 idx2 level2 st2 hpart,
      runLevelsEnh_step g env2 level2 rest2 idx2 st2 hnone2⟩

/-- C9 (witness): the chain a→b with `a` failing — level 1's run-set is
empty, `b` is skipped, and no level-1 events are emitted. -/
theorem empty_runset_level_events_witness :
    failEnv.cancelDuring = none ∧
    1 < ([["a"], ["b"]] : List (List String)).length ∧
    runSetAtLevel twoLevelGraph failEnv [["a"], ["b"]] 1 = [] ∧
    (∀ rs, WorkflowEvent.LevelStarted 1 rs
      ∉ (run_execution twoLevelGraph failEnv [["a"], ["b"]]).1.events) ∧
    WorkflowEvent.LevelCompleted 1
      ∉ (run_execution twoLevelGraph failEnv [["a"], ["b"]]).1.events :=
  ⟨rfl, by decide, by decide,
    (empty_runset_level_events twoLevelGraph failEnv [["a"], ["b"]] 1 rfl (by decide)
      (by decide)).2.2.1,
    (empty_runset_level_events twoLevelGraph failEnv [["a"], ["b"]] 1 rfl (by decide)
      (by decide)).2.2.2.1⟩

/-! ## C2 — dependency skipping -/

/-- With no cancellation pending, the state before level `k + 1` is obtained
by processing level `k` on the state before level `k`. -/
theorem stateBeforeLevel_succ (g : WorkflowGraph) (env : ExecEnv)
    (levels : List (List String)) (k : Nat)
    (hnone : env.cancelDuring = none) (hk : k < levels.length) :
    stateBeforeLevel g env levels (k + 1)
      = processOneLevel g env k (levels.getD k []) (stateBeforeLevel g env levels k) := by
  have hlentake : (levels.take k).length = k := List.length_take_of_le (le_of_lt hk)
  have htake : levels.take (k + 1) = levels.take k ++ [levels.getD k []] := by
    rw [List.getD_eq_getElem levels [] hk]
    exact (List.take_concat_get' levels k hk).symm
  rw [stateBeforeLevel, htake, runLevels_append]
  rcases hpre : runLevels g env (levels.take k) 0 (initSt levels) with ⟨stk, flag⟩
  have hflag : flag = false := by
    have h2 := runLevels_flag_of_none g env hnone (levels.take k) 0 (initSt levels)
    rw [hpre] at h2
    exact h2
  subst hflag
  simp only
  rw [hlentake, Nat.zero_add, runLevels, if_neg (by simp [cancelPending, hnone]), runLevels]
  have hstk : stateBeforeLevel g env levels k = stk := by rw [stateBeforeLevel, hpre]
  rw [hstk]

/-- With no cancellation, the failed-node set consulted before level `k` is
exactly the union, over the earlier levels, of the dispatched nodes whose
own task failed — skipped nodes never enter it. -/
theorem stateBeforeLevel_failed_eq (g : WorkflowGraph) (env : ExecEnv)
    (levels : List (List String)) (hnone : env.cancelDuring = none) :
    ∀ k, k ≤ levels.length →
    (stateBeforeLevel g env levels k).failed
      = ((List.range k).map
          (fun j => (runSetAtLevel g env levels j).filter (taskFails env))).join := by
  intro k
  induction k with
  | zero => intro _; rfl
  | succ k ih =>
    intro hk1
    have hk : k < levels.length := by omega
    have hsplit : ((List.range (k + 1)).map
          (fun j => (runSetAtLevel g env levels j).filter (taskFails env))).join
        = ((List.range k).map
          (fun j => (runSetAtLevel g env levels j).filter (taskFails env))).join
          ++ (runSetAtLevel g env levels k).filter (taskFails env) := by
      simp only [List.join, List.range_succ, List.map_append, List.flatten_append,
        List.map_cons, List.map_nil, List.flatten_cons, List.flatten_nil, List.append_nil]
    rw [stateBeforeLevel_succ g env levels k hnone hk, processOneLevel_failed]
    rw [if_neg (by rw [hnone]; intro h; cases h)]
    rw [hsplit, runSetAtLevel, ih (by omega)]

/-- The loop never touches the state entry of a node outside the remaining
levels. -/
theorem runLevels_lookup_not_mem (g : WorkflowGraph) (env : ExecEnv) :
    ∀ (ls : List (List String)) (idx : Nat) (st : ExecSt) (n : String),
      n ∉ ls.join →
      lookupState (runLevels g env ls idx st).1.states n = lookupState st.states n := by
  intro ls
  induction ls with
  | nil => intro idx st n _; rfl
  | cons level rest ih =>
    intro idx st n hn
    simp only [List.join, List.flatten_cons] at hn
    have hnl : n ∉ level := fun h => hn (List.mem_append.mpr (Or.inl h))
    have hnr : n ∉ rest.join := fun h => hn (List.mem_append.mpr (Or.inr h))
    rw [runLevels]
    by_cases hc : cancelPending env idx = true
    · rw [if_pos hc]
    · rw [if_neg hc, ih _ _ _ hnr, processOneLevel_lookup_not_mem g env idx level st n hnl]

/-- Looking up a node of the initial per-node state map yields its fresh
`Pending` state. -/
theorem lookupState_init_mem (xs : List String) (n : String) (hn : n ∈ xs) :
    lookupState (xs.map (fun m => (m, NodeExecutionState.new m))) n
      = some (NodeExecutionState.new n) := by
  induction xs with
  | nil => exact absurd hn (List.not_mem_nil n)
  | cons m t ih =>
    by_cases hmn : m = n
    · subst hmn
      simp [lookupState, List.find?_cons]
    · have hnt : n ∈ t := by
        rcases List.mem_cons.mp hn with h1 | h1
        · exact absurd h1.symm hmn
        · exact h1
      have hb : (m == n) = false := by simp [hmn]
      simp only [lookupState, List.map_cons, List.find?_cons, hb]
      exact ih hnt

/-- A node of the level with a failed dependency ends the level `Skipped`
with the fixed reason, and is kept away from the dispatch fold. -/
theorem processOneLevel_lookup_skipped (g : WorkflowGraph) (env : ExecEnv) (idx : Nat)
    (level : List String) (st : ExecSt) (n : String)
    (hn : n ∈ level) (hskip : hasFailedDep g st.failed n = true)
    (hex : ∃ s0, lookupState st.states n = some s0) :
    ∃ s, lookupState (processOneLevel g env idx level st).states n = some s ∧
      s.status = .Skipped ∧ s.error = some "Dependency failed" := by
  have hnskip : n ∈ level.filter (fun m => hasFailedDep g st.failed m) :=
    List.mem_filter.mpr ⟨hn, hskip⟩
  have hnrun : n ∉ level.filter (fun m => !(hasFailedDep g st.failed m)) := by
    intro hmem
    have h2 := (List.mem_filter.mp hmem).2
    rw [hskip] at h2
    cases h2
  obtain ⟨s1, hs1, hstat, herr⟩ := foldl_skipNode_lookup_mem _ _ _ hnskip hex
  by_cases h : (level.filter (fun m => !(hasFailedDep g st.failed m))).isEmpty
  · refine ⟨s1, ?_, hstat, herr⟩
    simp only [processOneLevel, h, if_true]
    exact hs1
  · refine ⟨s1, ?_, hstat, herr⟩
    simp only [processOneLevel, h, Bool.false_eq_true, if_false]
    rw [foldl_dispatchNode_lookup_not_mem env idx _ _ _ hnrun]
    exact hs1

/-- A node of the level with no failed dependency is dispatched and ends the
level with its own task's outcome. -/
theorem processOneLevel_lookup_run (g : WorkflowGraph) (env : ExecEnv) (idx : Nat)
    (level : List String) (st : ExecSt) (n : String)
    (hn : n ∈ level) (hrun : hasFailedDep g st.failed n = false)
    (hex : ∃ s0, lookupState st.states n = some s0) :
    ∃ s, lookupState (processOneLevel g env idx level st).states n = some s ∧
      s.status = (if env.cancelDuring = some idx then .Failed
        else match env.result n with
          | .ok _ => NodeExecutionStatus.Completed
          | .err _ => NodeExecutionStatus.Failed) := by
  have hnrun : n ∈ level.filter (fun m => !(hasFailedDep g st.failed m)) :=
    List.mem_filter.mpr ⟨hn, by rw [hrun]; rfl⟩
  have hnskip : n ∉ level.filter (fun m => hasFailedDep g st.failed m) := by
    intro hmem
    have h2 := (List.mem_filter.mp hmem).2
    rw [hrun] at h2
    cases h2
  have hex1 : ∃ s0, lookupState ((level.filter
      (fun m => hasFailedDep g st.failed m)).foldl skipNode st).states n = some s0 := by
    rw [foldl_skipNode_lookup_not_mem _ _ _ hnskip]
    exact hex
  by_cases h : (level.filter (fun m => !(hasFailedDep g st.failed m))).isEmpty
  · exfalso
    rw [List.isEmpty_iff] at h
    rw [h] at hnrun
    exact absurd hnrun (List.not_mem_nil n)
  · simp only [processOneLevel, h, Bool.false_eq_true, if_false]
    exact foldl_dispatchNode_lookup_mem env idx _ _ n hnrun hex1

/-- With no cancellation, the final state entry of a node that appears in no
level after level `k` is the one written while processing level `k`. -/
theorem run_execution_states_after (g : WorkflowGraph) (env : ExecEnv)
    (levels : List (List String)) (k : Nat) (n : String)
    (hnone : env.cancelDuring = none) (hk : k < levels.length)
    (hlater : n ∉ (levels.drop (k + 1)).join) :
    lookupState (run_execution g env levels).1.states n
      = lookupState (processOneLevel g env k (levels.getD k [])
          (stateBeforeLevel g env levels k)).states n := by
  have hsplit := runLevels_append g env (levels.take (k + 1)) (levels.drop (k + 1)) 0
    (initSt levels)
  rw [List.take_append_drop] at hsplit
  rcases hpre : runLevels g env (levels.take (k + 1)) 0 (initSt levels) with ⟨st1, flag⟩
  have hflag : flag = false := by
    have h2 := runLevels_flag_of_none g env hnone (levels.take (k + 1)) 0 (initSt levels)
    rw [hpre] at h2
    exact h2
  subst hflag
  rw [hpre] at hsplit
  simp only at hsplit
  have hst1 : st1 = processOneLevel g env k (levels.getD k [])
      (stateBeforeLevel g env levels k) := by
    have h2 := stateBeforeLevel_succ g env levels k hnone hk
    rw [stateBeforeLevel, hpre] at h2
    exact h2
  rcases hfin : runLevels g env (levels.drop (k + 1)) (0 + (levels.take (k + 1)).length) st1
    with ⟨stL, flagL⟩
  have hflagL : flagL = false := by
    have h3 := runLevels_flag_of_none g env hnone (levels.drop (k + 1))
      (0 + (levels.take (k + 1)).length) st1
    rw [hfin] at h3
    exact h3
  subst hflagL
  have hlook : lookupState stL.states n = lookupState st1.states n := by
    have h4 := runLevels_lookup_not_mem g env (levels.drop (k + 1))
      (0 + (levels.take (k + 1)).length) st1 n hlater
    rw [hfin] at h4
    exact h4
  rw [run_execution, hsplit, hfin]
  dsimp only
  by_cases hfe : stL.failed.isEmpty
  · rw [if_pos hfe]
    dsimp only
    rw [hlook, hst1]
  · rw [if_neg hfe]
    dsimp only
    rw [hlook, hst1]

/-- C2 (amended): dependency skipping consults only the *immediate*
predecessors against the failed set, and skipped nodes are never added to
that set, so skipping does not propagate transitively.  With no
cancellation: the failed set before level `k` is exactly the set of
earlier dispatched nodes whose own task failed; the skip test for a node is
the membership of an immediate predecessor in that set; a node of level `k`
with a failed immediate predecessor is kept out of the run-set and ends
`Skipped`; a node all of whose immediate predecessors avoided failure is
dispatched — even when a transitive predecessor failed — and ends with its
own task's outcome.  The enhanced engine's level partition applies the same
immediate-predecessor test. -/
theorem dependency_skip_immediate_only (g : WorkflowGraph) (env : ExecEnv)
    (levels : List (List String)) (k : Nat) (n : String)
    (hnone : env.cancelDuring = none) (hk : k < levels.length)
    (hn : n ∈ levels.getD k [])
    (hearlier : n ∉ (levels.take k).join)
    (hlater : n ∉ (levels.drop (k + 1)).join) :
    ((stateBeforeLevel g env levels k).failed
      = ((List.range k).map
          (fun j => (runSetAtLevel g env levels j).filter (taskFails env))).join) ∧
    (hasFailedDep g (stateBeforeLevel g env levels k).failed n
      = (predecessorsOf g n).any
          (fun p => (stateBeforeLevel g env levels k).failed.contains p)) ∧
    (hasFailedDep g (stateBeforeLevel g env levels k).failed n = true →
      n ∉ runSetAtLevel g env levels k ∧
      ∃ s, lookupState (run_execution g env levels).1.states n = some s ∧
        s.status = .Skipped ∧ s.error = some "Dependency failed") ∧
    (hasFailedDep g (stateBeforeLevel g env levels k).failed n = false →
      n ∈ runSetAtLevel g env levels k ∧
      ∃ s, lookupState (run_execution g env levels).1.states n = some s ∧
        s.status = (match env.result n with
          | .ok _ => NodeExecutionStatus.Completed
          | .err _ => NodeExecutionStatus.Failed)) ∧
    (∀ (env2 : EnhancedEnv) (failed : List String)
        (statuses : List (String × NodeExecutionStatus)) (m : String)
        (rest : List String),
      (hasFailedDep g failed m = true →
        partitionLevelEnh g env2 failed statuses (m :: rest)
          = ((m, "Dependency failed") ::
              (partitionLevelEnh g env2 failed statuses rest).1,
             (partitionLevelEnh g env2 failed statuses rest).2)) ∧
      (hasFailedDep g failed m = false →
        env2.condExec m statuses (g.get_dependencies m) = true →
        partitionLevelEnh g env2 failed statuses (m :: rest)
          = ((partitionLevelEnh g env2 failed statuses rest).1,
             m :: (partitionLevelEnh g env2 failed statuses rest).2))) := by
  have hjoin : n ∈ levels.join := by
    have hget : levels.getD k [] = levels[k] := List.getD_eq_getElem levels [] hk
    rw [hget] at hn
    exact List.mem_join.mpr ⟨levels[k], List.getElem_mem hk, hn⟩
  have hsbl : lookupState (stateBeforeLevel g env levels k).states n
      = some (NodeExecutionState.new n) := by
    rw [stateBeforeLevel]
    rw [runLevels_lookup_not_mem g env (levels.take k) 0 (initSt levels) n hearlier]
    exact lookupState_init_mem levels.join n hjoin
  have hex : ∃ s0, lookupState (stateBeforeLevel g env levels k).states n = some s0 :=
    ⟨_, hsbl⟩
  have hlookfin := run_execution_states_after g env levels k n hnone hk hlater
  refine ⟨stateBeforeLevel_failed_eq g env levels hnone k (le_of_lt hk), rfl, ?_, ?_, ?_⟩
  · intro hskip
    constructor
    · intro hmem
      have h2 := (List.mem_filter.mp hmem).2
      rw [hskip] at h2
      cases h2
    · obtain ⟨s, hs, hstat, herr⟩ := processOneLevel_lookup_skipped g env k
        (levels.getD k []) (stateBeforeLevel g env levels k) n hn hskip hex
      exact ⟨s, by rw [hlookfin]; exact hs, hstat, herr⟩
  · intro hrun
    constructor
    · exact List.mem_filter.mpr ⟨hn, by rw [hrun]; rfl⟩
    · obtain ⟨s, hs, hstat⟩ := processOneLevel_lookup_run g env k
        (levels.getD k []) (stateBeforeLevel g env levels k) n hn hrun hex
      refine ⟨s, by rw [hlookfin]; exact hs, ?_⟩
      rw [hstat, if_neg (by rw [hnone]; intro h; cases h)]
  · intro env2 failed statuses m rest
    constructor
    · intro hsk
      simp only [partitionLevelEnh]
      rw [if_pos hsk]
    · intro hsk hcond
      simp only [partitionLevelEnh]
      rw [if_neg (by rw [hsk]; intro h; cases h), if_pos hcond]

/-- C2 (witness): on the chain a→b→c with `a` failing, the amended theorem
applied at level 1 to node `b`. -/
theorem dependency_skip_immediate_only_witness :
    chainEnv.cancelDuring = none ∧
    1 < ([["a"], ["b"], ["c"]] : List (List String)).length ∧
    "b" ∈ ([["a"], ["b"], ["c"]] : List (List String)).getD 1 [] ∧
    "b" ∉ (([["a"], ["b"], ["c"]] : List (List String)).take 1).join ∧
    "b" ∉ (([["a"], ["b"], ["c"]] : List (List String)).drop 2).join ∧
    ((stateBeforeLevel chainGraph chainEnv [["a"], ["b"], ["c"]] 1).failed
      = ((List.range 1).map
          (fun j => (runSetAtLevel chainGraph chainEnv [["a"], ["b"], ["c"]] j).filter
            (taskFails chainEnv))).join) :=
  ⟨rfl, by decide, by decide, by decide, by decide,
    (dependency_skip_immediate_only chainGraph chainEnv [["a"], ["b"], ["c"]] 1 "b" rfl
      (by decide) (by decide) (by decide) (by decide)).1⟩

/-- C2 (counterexample): skipping is *not* transitive.  On the chain a→b→c
with `a` failing, `b` is skipped, yet `c` — reachable from the failure only
through the skipped `b` — is dispatched (a `NodeStarted` event is emitted
for it) and ends `Completed`, not `Skipped`. -/
theorem skip_not_transitive_counterexample :
    ((lookupState (run_execution chainGraph chainEnv [["a"], ["b"], ["c"]]).1.states "a").map
      (fun s => s.status) = some .Failed) ∧
    ((lookupState (run_execution chainGraph chainEnv [["a"], ["b"], ["c"]]).1.states "b").map
      (fun s => s.status) = some .Skipped) ∧
    ((lookupState (run_execution chainGraph chainEnv [["a"], ["b"], ["c"]]).1.states "c").map
      (fun s => s.status) = some .Completed) ∧
    WorkflowEvent.NodeStarted "c"
      ∈ (run_execution chainGraph chainEnv [["a"], ["b"], ["c"]]).1.events ∧
    WorkflowEvent.NodeSkipped "c" "Dependency failed"
      ∉ (run_execution chainGraph chainEnv [["a"], ["b"], ["c"]]).1.events := by
  decide

/-! ## C8 — parsing duplicated node ids -/

theorem containsKey_iff (m : List (String × ParsedNode)) (k : String) :
    containsKey m k = true ↔ k ∈ m.map (·.1) := by
  simp [containsKey, List.any_eq_true]

theorem insertNode_keys (m : List (String × ParsedNode)) (k : String) (v : ParsedNode) :
    (insertNode m k v).map (·.1)
      = if containsKey m k then m.map (·.1) else m.map (·.1) ++ [k] := by
  rw [insertNode, containsKey]
  by_cases h : m.any (fun p => p.1 == k)
  · rw [if_pos h, if_pos h, List.map_map]
    apply List.map_congr_left
    intro p _
    simp only [Function.comp]
    by_cases hp : (p.1 == k) = true
    · rw [if_pos hp]
      exact (beq_iff_eq.mp hp).symm
    · rw [if_neg hp]
  · rw [if_neg h, if_neg h, List.map_append]
    rfl

theorem foldl_insert_keys_mem (rns : List RawNode) :
    ∀ (m : List (String × ParsedNode)) (k : String),
      k ∈ ((rns.foldl (fun m rn => insertNode m rn.id
        ⟨rn.id, rn.label, rn.agentRole, rn.systemPrompt, rn.assignedTask⟩) m)).map (·.1)
      ↔ (k ∈ m.map (·.1) ∨ k ∈ rns.map RawNode.id) := by
  induction rns with
  | nil => intro m k; simp
  | cons rn rest ih =>
    intro m k
    rw [List.foldl_cons, ih, List.map_cons]
    constructor
    · rintro (h | h)
      · rw [insertNode_keys] at h
        by_cases hc : containsKey m rn.id
        · rw [if_pos hc] at h
          exact Or.inl h
        · rw [if_neg hc] at h
          rcases List.mem_append.mp h with h1 | h1
          · exact Or.inl h1
          · simp only [List.mem_singleton] at h1
            subst h1
            exact Or.inr (List.mem_cons_self _ _)
      · exact Or.inr (List.mem_cons_of_mem _ h)
    · intro h
      rcases h with h | h
      · left
        rw [insertNode_keys]
        by_cases hc : containsKey m rn.id
        · rw [if_pos hc]
          exact h
        · rw [if_neg hc]
          exact List.mem_append.mpr (Or.inl h)
      · rcases List.mem_cons.mp h with h1 | h1
        · left
          rw [insertNode_keys]
          by_cases hc : containsKey m rn.id
          · rw [if_pos hc, h1]
            exact (containsKey_iff m rn.id).mp hc
          · rw [if_neg hc]
            exact List.mem_append.mpr (Or.inr (by simp [h1]))
        · exact Or.inr h1

theorem foldl_insert_keys_nodup (rns : List RawNode) :
    ∀ (m : List (String × ParsedNode)), (m.map (·.1)).Nodup →
      List.Nodup ((rns.foldl (fun m rn => insertNode m rn.id
        ⟨rn.id, rn.label, rn.agentRole, rn.systemPrompt, rn.assignedTask⟩) m).map (·.1)) := by
  induction rns with
  | nil => intro m h; exact h
  | cons rn rest ih =>
    intro m h
    rw [List.foldl_cons]
    apply ih
    rw [insertNode_keys]
    by_cases hc : containsKey m rn.id
    · rw [if_pos hc]
      exact h
    · rw [if_neg hc]
      have hnm : rn.id ∉ m.map (·.1) := by
        intro hmem
        rw [← containsKey_iff] at hmem
        rw [hmem] at hc
        exact hc rfl
      simp [List.nodup_append, h, hnm]

theorem validateEdges_ok_sound (m : List (String × ParsedNode)) :
    ∀ (es : List RawEdge) (out : List ParsedEdge), validateEdges m es = .ok out →
      ∀ e ∈ out, containsKey m e.source = true ∧ containsKey m e.target = true := by
  intro es
  induction es with
  | nil =>
    intro out h
    rw [validateEdges] at h
    injection h with h1
    subst h1
    intro e he
    exact absurd he (List.not_mem_nil e)
  | cons e rest ih =>
    intro out h
    rw [validateEdges] at h
    by_cases hs : containsKey m e.source
    · rw [if_neg (fun hno => hno hs)] at h
      by_cases ht : containsKey m e.target
      · rw [if_neg (fun hno => hno ht)] at h
        rcases hve : validateEdges m rest with err | tail
        · rw [hve] at h
          exact Except.noConfusion h
        · rw [hve] at h
          injection h with h1
          subst h1
          intro e2 he2
          rcases List.mem_cons.mp he2 with h2 | h2
          · subst h2
            exact ⟨hs, ht⟩
          · exact ih tail hve e2 h2
      · rw [if_pos ht] at h
        exact Except.noConfusion h
    · rw [if_pos hs] at h
      exact Except.noConfusion h

theorem validateEdges_err_of_bad (m : List (String × ParsedNode)) :
    ∀ (es : List RawEdge),
      (∃ e ∈ es, containsKey m e.source = false ∨ containsKey m e.target = false) →
      ∃ id, validateEdges m es = .error (.NodeNotFound id) := by
  intro es
  induction es with
  | nil =>
    rintro ⟨e, he, _⟩
    exact absurd he (List.not_mem_nil e)
  | cons e rest ih =>
    rintro ⟨e2, he2, hbad⟩
    rw [validateEdges]
    by_cases hs : containsKey m e.source
    · rw [if_neg (fun hno => hno hs)]
      by_cases ht : containsKey m e.target
      · rw [if_neg (fun hno => hno ht)]
        have hrest : ∃ e3 ∈ rest,
            containsKey m e3.source = false ∨ containsKey m e3.target = false := by
          rcases List.mem_cons.mp he2 with h2 | h2
          · subst h2
            rcases hbad with hb | hb
            · rw [hs] at hb
              cases hb
            · rw [ht] at hb
              cases hb
          · exact ⟨e2, h2, hbad⟩
        obtain ⟨id, hid⟩ := ih hrest
        rw [hid]
        exact ⟨id, rfl⟩
      · rw [if_pos ht]
        exact ⟨e.target, rfl⟩
    · rw [if_pos hs]
      exact ⟨e.source, rfl⟩

/-- C8 (amended): `from_json` rejects a missing `nodes`/`edges` field with
`InvalidFormat` and an edge whose endpoint is absent from the node map with
`NodeNotFound`, but a duplicated node id is *not* rejected: nodes are
inserted into the map one by one, each duplicate silently replacing the
earlier entry, so a successful parse has distinct keys — exactly the ids
occurring in the input — and every accepted edge's endpoints among them. -/
theorem from_json_error_behavior (j : GraphJson) :
    (j.nodes = none →
      from_json j = .error (.InvalidFormat "Missing 'nodes' field")) ∧
    (∀ rns, j.nodes = some rns → j.edges = none →
      from_json j = .error (.InvalidFormat "Missing 'edges' field")) ∧
    (∀ rns res g, j.nodes = some rns → j.edges = some res → from_json j = .ok g →
      List.Nodup (nodeIds g) ∧
      (∀ k, k ∈ nodeIds g ↔ k ∈ rns.map RawNode.id) ∧
      (∀ e ∈ g.edges, e.source ∈ nodeIds g ∧ e.target ∈ nodeIds g)) ∧
    (∀ rns res, j.nodes = some rns → j.edges = some res →
      (∃ e ∈ res, e.source ∉ rns.map RawNode.id ∨ e.target ∉ rns.map RawNode.id) →
      ∃ id, from_json j = .error (.NodeNotFound id)) := by
  refine ⟨?_, ?_, ?_, ?_⟩
  · intro hn
    rw [from_json, hn]
  · intro rns hn he
    rw [from_json, hn, he]
  · intro rns res g hn he hok
    rw [from_json, hn, he] at hok
    dsimp only at hok
    rcases hve : validateEdges (rns.foldl (fun m rn => insertNode m rn.id
        ⟨rn.id, rn.label, rn.agentRole, rn.systemPrompt, rn.assignedTask⟩) []) res
      with err | edges
    · rw [hve] at hok
      exact Except.noConfusion hok
    · rw [hve] at hok
      injection hok with h1
      subst h1
      refine ⟨?_, ?_, ?_⟩
      · exact foldl_insert_keys_nodup rns [] (by simp)
      · intro k
        have h5 := foldl_insert_keys_mem rns [] k
        simpa [nodeIds] using h5
      · intro e he2
        have hsound := validateEdges_ok_sound _ res edges hve e he2
        exact ⟨(containsKey_iff _ _).mp hsound.1, (containsKey_iff _ _).mp hsound.2⟩
  · intro rns res hn he hbad
    have hkeys : ∀ x, x ∉ rns.map RawNode.id →
        containsKey (rns.foldl (fun m rn => insertNode m rn.id
          ⟨rn.id, rn.label, rn.agentRole, rn.systemPrompt, rn.assignedTask⟩) []) x
          = false := by
      intro x hx
      by_cases hc : containsKey (rns.foldl (fun m rn => insertNode m rn.id
          ⟨rn.id, rn.label, rn.agentRole, rn.systemPrompt, rn.assignedTask⟩) []) x
      · exfalso
        have h5 := (containsKey_iff _ x).mp hc
        rw [foldl_insert_keys_mem rns [] x] at h5
        rcases h5 with h5 | h5
        · simp at h5
        · exact hx h5
      · exact Bool.eq_false_iff.mpr hc
    obtain ⟨e, hee, hbad1⟩ := hbad
    have hbad2 : ∃ e2 ∈ res, containsKey (rns.foldl (fun m rn => insertNode m rn.id
        ⟨rn.id, rn.label, rn.agentRole, rn.systemPrompt, rn.assignedTask⟩) []) e2.source
          = false ∨
        containsKey (rns.foldl (fun m rn => insertNode m rn.id
          ⟨rn.id, rn.label, rn.agentRole, rn.systemPrompt, rn.assignedTask⟩) []) e2.target
          = false := by
      refine ⟨e, hee, ?_⟩
      rcases hbad1 with h5 | h5
      · exact Or.inl (hkeys _ h5)
      · exact Or.inr (hkeys _ h5)
    obtain ⟨id, hid⟩ := validateEdges_err_of_bad _ res hbad2
    refine ⟨id, ?_⟩
    rw [from_json, hn, he]
    dsimp only
    rw [hid]

/-- C8 (witness): the amended theorem's success conjunct applied to the
duplicated-id input: the parse is accepted and its key set is `{"a"}`. -/
theorem from_json_error_behavior_witness :
    dupIdInput.nodes = some [⟨"a", "first", "implementer", none, none⟩,
                             ⟨"a", "second", "tester", none, none⟩] ∧
    dupIdInput.edges = some [] ∧
    from_json dupIdInput
      = .ok ⟨[("a", ⟨"a", "second", "tester", none, none⟩)], []⟩ ∧
    List.Nodup (nodeIds ⟨[("a", ⟨"a", "second", "tester", none, none⟩)], []⟩) :=
  ⟨rfl, rfl, rfl,
    ((from_json_error_behavior dupIdInput).2.2.1
      [⟨"a", "first", "implementer", none, none⟩, ⟨"a", "second", "tester", none, none⟩]
      []
      ⟨[("a", ⟨"a", "second", "tester", none, none⟩)], []⟩
      rfl rfl rfl).1⟩

/-- C8 (counterexample): an input whose two node entries share the id `"a"`
is not rejected: `from_json` returns a graph, and the second entry has
silently replaced the first. -/
theorem duplicate_id_accepted_counterexample :
    ((dupIdInput.nodes.getD []).map RawNode.id = ["a", "a"]) ∧
    from_json dupIdInput
      = .ok ⟨[("a", ⟨"a", "second", "tester", none, none⟩)], []⟩ :=
  ⟨by decide, rfl⟩

/-! ## C1 — stratification: counting infrastructure -/

theorem join_concat (ls : List (List String)) (q : List String) :
    (ls ++ [q]).join = ls.join ++ q := by
  simp only [List.join]
  rw [List.flatten_append]
  simp

theorem join_take_drop (ls : List (List String)) (j : Nat) :
    ls.join = (ls.take j).join ++ (ls.drop j).join := by
  conv_lhs => rw [← List.take_append_drop j ls]
  simp only [List.join]
  rw [List.flatten_append]

theorem remDeg_nil (g : WorkflowGraph) (v : String) :
    remDeg g [] v = (predecessorsOf g v).length := by
  simp [remDeg]

theorem remDeg_eq_countP (g : WorkflowGraph) (D : List String) (v : String) :
    remDeg g D v
      = g.edges.countP (fun e => (e.target == v) && !decide (e.source ∈ D)) := by
  rw [remDeg, predecessorsOf, ← List.countP_eq_length_filter, List.countP_map,
    List.countP_filter]
  apply List.countP_congr
  intro e _
  simp [Function.comp, Bool.and_comm]

theorem remDeg_eq_zero_iff (g : WorkflowGraph) (D : List String) (v : String) :
    remDeg g D v = 0 ↔ ∀ p ∈ predecessorsOf g v, p ∈ D := by
  rw [remDeg, List.length_eq_zero, List.filter_eq_nil_iff]
  constructor
  · intro h p hp
    have h2 := h p hp
    simpa using h2
  · intro h p hp
    simp [h p hp]

theorem countP_source_cons (u : String) (t : List String)
    (hu : u ∉ t) (p : ParsedEdge → Bool) :
    ∀ es : List ParsedEdge,
    es.countP (fun e => p e && decide (e.source ∈ u :: t))
      = es.countP (fun e => p e && (e.source == u))
        + es.countP (fun e => p e && decide (e.source ∈ t)) := by
  intro es
  induction es with
  | nil => rfl
  | cons e rest ih =>
    rw [List.countP_cons, List.countP_cons, List.countP_cons, ih]
    by_cases hs : e.source = u
    · have h1 : decide (e.source ∈ u :: t) = true := by simp [hs]
      have h2 : (e.source == u) = true := by simp [hs]
      have h3 : decide (e.source ∈ t) = false := by
        subst hs
        simp [hu]
      rw [h1, h2, h3]
      cases hp : p e <;> simp <;> omega
    · have h2 : (e.source == u) = false := by simp [hs]
      have h1 : decide (e.source ∈ u :: t) = decide (e.source ∈ t) := by
        simp [List.mem_cons, hs]
      rw [h1, h2]
      cases hp : p e <;> simp <;> omega

theorem countP_split_drain (p : ParsedEdge → Bool) (D Q : List String)
    (hdisj : ∀ x ∈ Q, x ∉ D) :
    ∀ es : List ParsedEdge,
    es.countP (fun e => p e && !decide (e.source ∈ D))
      = es.countP (fun e => p e && !decide (e.source ∈ D ++ Q))
        + es.countP (fun e => p e && decide (e.source ∈ Q)) := by
  intro es
  induction es with
  | nil => rfl
  | cons e rest ih =>
    rw [List.countP_cons, List.countP_cons, List.countP_cons, ih]
    by_cases hq : e.source ∈ Q
    · have hd : e.source ∉ D := hdisj _ hq
      have h1 : decide (e.source ∈ Q) = true := by simp [hq]
      have h2 : (!decide (e.source ∈ D)) = true := by simp [hd]
      have h3 : (!decide (e.source ∈ D ++ Q)) = false := by
        simp [List.mem_append, hq]
      rw [h1, h2, h3]
      cases hp : p e <;> simp <;> omega
    · have h1 : decide (e.source ∈ Q) = false := by simp [hq]
      have h3 : (!decide (e.source ∈ D ++ Q)) = (!decide (e.source ∈ D)) := by
        simp [List.mem_append, hq]
      rw [h1, h3]
      cases hp : p e <;> cases hd : decide (e.source ∈ D) <;> simp <;> omega

theorem count_flatMap_successors (g : WorkflowGraph) :
    ∀ (Q : List String), Q.Nodup → ∀ v : String,
    (Q.flatMap (fun u => successorsOf g u)).count v
      = g.edges.countP (fun e => (e.target == v) && decide (e.source ∈ Q)) := by
  intro Q
  induction Q with
  | nil =>
    intro _ v
    rw [List.flatMap_nil, List.count_nil]
    have h : ∀ e ∈ g.edges,
        ¬((fun e => (e.target == v) && decide (e.source ∈ ([] : List String))) e = true) := by
      intro e _
      simp
    exact (List.countP_eq_zero.mpr h).symm
  | cons u t ih =>
    intro hQ v
    have hu : u ∉ t := (List.nodup_cons.mp hQ).1
    have ht : t.Nodup := (List.nodup_cons.mp hQ).2
    rw [List.flatMap_cons, List.count_append, ih ht v,
      countP_source_cons u t hu (fun e => e.target == v) g.edges]
    have hsucc : (successorsOf g u).count v
        = g.edges.countP (fun e => (e.target == v) && (e.source == u)) := by
      rw [successorsOf, List.count_eq_countP, List.countP_map, List.countP_filter]
      apply List.countP_congr
      intro e _
      rfl
    rw [hsucc]

theorem updFn_self (f : String → Nat) (k : String) (x : Nat) : updFn f k x k = x := by
  simp [updFn]

theorem updFn_ne (f : String → Nat) (k : String) (x : Nat) (v : String) (hv : v ≠ k) :
    updFn f k x v = f v := by
  simp [updFn, hv]

/-- The inner decrement fold: the final degree table subtracts the
occurrence count of each known node, and the collected next queue holds,
without duplicates, exactly the known nodes whose degree was consumed to
zero (under the no-overdraw hypothesis, which the loop invariant supplies). -/
theorem processFold_spec (N : List String) (deg : String → Nat) :
    ∀ (ss : List String), (∀ v ∈ N, ss.count v ≤ deg v) →
      (∀ v, (ss.foldl (processSucc N) (deg, [])).1 v
          = if v ∈ N then deg v - ss.count v else deg v) ∧
      (ss.foldl (processSucc N) (deg, [])).2.Nodup ∧
      (∀ v, v ∈ (ss.foldl (processSucc N) (deg, [])).2
          ↔ (v ∈ N ∧ 0 < ss.count v ∧ ss.count v = deg v)) := by
  intro ss
  induction ss using List.reverseRecOn with
  | nil =>
    intro _
    refine ⟨?_, List.nodup_nil, ?_⟩
    · intro v
      by_cases hv : v ∈ N <;> simp [hv]
    · intro v
      simp
  | append_singleton ss u ih =>
    intro hcount
    have hcount' : ∀ v ∈ N, ss.count v ≤ deg v := by
      intro v hv
      have h2 := hcount v hv
      rw [List.count_append] at h2
      omega
    obtain ⟨ihdeg, ihnd, ihmem⟩ := ih hcount'
    rcases hst : ss.foldl (processSucc N) (deg, []) with ⟨deg₁, acc₁⟩
    rw [hst] at ihdeg ihnd ihmem
    simp only at ihdeg ihnd ihmem
    rw [List.foldl_append, hst, List.foldl_cons, List.foldl_nil]
    have hcua : (ss ++ [u]).count u = ss.count u + 1 := by
      rw [List.count_append]
      simp
    have hcount_ne : ∀ v, v ≠ u → (ss ++ [u]).count v = ss.count v := by
      intro v hv
      rw [List.count_append, List.count_singleton']
      simp [Ne.symm hv]
    rw [processSucc]
    by_cases hu : u ∈ N
    · rw [if_pos hu]
      dsimp only
      have hdu : deg₁ u = deg u - ss.count u := by
        have h2 := ihdeg u
        rw [if_pos hu] at h2
        exact h2
      have hcub : ss.count u + 1 ≤ deg u := by
        have h2 := hcount u hu
        rw [hcua] at h2
        exact h2
      by_cases hz : deg₁ u - 1 = 0
      · rw [if_pos hz]
        rw [hdu] at hz
        have hdeq : deg u = ss.count u + 1 := by omega
        refine ⟨?_, ?_, ?_⟩
        · intro v
          by_cases hvu : v = u
          · subst hvu
            rw [updFn_self, if_pos hu, hcua, hdu]
            omega
          · rw [updFn_ne _ _ _ _ hvu, hcount_ne v hvu]
            exact ihdeg v
        · have hnotin : u ∉ acc₁ := by
            intro hmem
            obtain ⟨_, _, h3⟩ := (ihmem u).mp hmem
            omega
          refine List.Nodup.append ihnd (List.nodup_singleton u) ?_
          intro a ha hau
          rw [List.mem_singleton] at hau
          subst hau
          exact hnotin ha
        · intro v
          rw [List.mem_append, List.mem_singleton, ihmem v]
          by_cases hvu : v = u
          · subst hvu
            rw [hcua]
            constructor
            · intro _
              exact ⟨hu, by omega, by omega⟩
            · intro _
              exact Or.inr rfl
          · rw [hcount_ne v hvu]
            constructor
            · rintro (h | h)
              · exact h
              · exact absurd h hvu
            · intro h
              exact Or.inl h
      · rw [if_neg hz]
        rw [hdu] at hz
        refine ⟨?_, ihnd, ?_⟩
        · intro v
          by_cases hvu : v = u
          · subst hvu
            rw [updFn_self, if_pos hu, hcua, hdu]
            omega
          · rw [updFn_ne _ _ _ _ hvu, hcount_ne v hvu]
            exact ihdeg v
        · intro v
          rw [ihmem v]
          by_cases hvu : v = u
          · subst hvu
            rw [hcua]
            constructor
            · rintro ⟨_, _, h3⟩
              exact absurd h3 (by omega)
            · rintro ⟨_, _, h3⟩
              exact absurd h3 (by omega)
          · rw [hcount_ne v hvu]
    · rw [if_neg hu]
      refine ⟨?_, ihnd, ?_⟩
      · intro v
        have h2 := ihdeg v
        by_cases hvn : v ∈ N
        · rw [if_pos hvn] at h2 ⊢
          have hvu : v ≠ u := fun h => hu (h ▸ hvn)
          rw [hcount_ne v hvu]
          exact h2
        · rw [if_neg hvn] at h2 ⊢
          exact h2
      · intro v
        rw [ihmem v]
        by_cases hvu : v = u
        · subst hvu
          constructor
          · rintro ⟨h1, _, _⟩
            exact absurd h1 hu
          · rintro ⟨h1, _, _⟩
            exact absurd h1 hu
        · rw [hcount_ne v hvu]

theorem processLevel_eq_flatMap (g : WorkflowGraph) (deg : String → Nat)
    (queue : List String) :
    processLevel g deg queue
      = (queue.flatMap (fun u => successorsOf g u)).foldl (processSucc (nodeIds g))
          (deg, []) := by
  rw [processLevel]
  generalize (deg, ([] : List String)) = st
  induction queue generalizing st with
  | nil => rfl
  | cons u t ih =>
    rw [List.foldl_cons, List.flatMap_cons, List.foldl_append]
    exact ih _

/-- Processing one drained level: the new degree table is the remaining
degree relative to the enlarged drained set, and the next queue holds exactly
the nodes just released (positive remaining degree before, zero after). -/
theorem processLevel_spec (g : WorkflowGraph) (D Q : List String) (deg : String → Nat)
    (hQnd : Q.Nodup) (hdisj : ∀ x ∈ Q, x ∉ D)
    (hdeg : ∀ v ∈ nodeIds g, deg v = remDeg g D v) :
    (∀ v ∈ nodeIds g, (processLevel g deg Q).1 v = remDeg g (D ++ Q) v) ∧
    (processLevel g deg Q).2.Nodup ∧
    (∀ v, v ∈ (processLevel g deg Q).2
      ↔ (v ∈ nodeIds g ∧ 0 < remDeg g D v ∧ remDeg g (D ++ Q) v = 0)) := by
  have hidentity : ∀ v, remDeg g D v
      = remDeg g (D ++ Q) v + (Q.flatMap (fun u => successorsOf g u)).count v := by
    intro v
    rw [count_flatMap_successors g Q hQnd v, remDeg_eq_countP, remDeg_eq_countP]
    exact countP_split_drain (fun e => e.target == v) D Q hdisj g.edges
  have hcount : ∀ v ∈ nodeIds g,
      (Q.flatMap (fun u => successorsOf g u)).count v ≤ deg v := by
    intro v hv
    rw [hdeg v hv, hidentity v]
    omega
  obtain ⟨hdeg', hnd', hmem'⟩ := processFold_spec (nodeIds g) deg
    (Q.flatMap (fun u => successorsOf g u)) hcount
  rw [processLevel_eq_flatMap]
  refine ⟨?_, hnd', ?_⟩
  · intro v hv
    have hid := hidentity v
    rw [hdeg' v, if_pos hv, hdeg v hv]
    omega
  · intro v
    rw [hmem' v]
    constructor
    · rintro ⟨hv, hpos, heq⟩
      have hid := hidentity v
      rw [hdeg v hv] at heq
      exact ⟨hv, by omega, by omega⟩
    · rintro ⟨hv, hpos, hzero⟩
      have hid := hidentity v
      refine ⟨hv, by omega, ?_⟩
      rw [hdeg v hv]
      omega

/-- The main loop: from a state satisfying the Kahn invariant and with
enough fuel, the loop returns levels whose flattening is duplicate-free,
contains only known nodes, is counted exactly by `processed`, leaves every
unprocessed node with a positive remaining degree, and orders every node
strictly after its predecessors. -/
theorem kahnLoop_ok (g : WorkflowGraph) :
    ∀ (fuel : Nat) (queue : List String) (deg : String → Nat)
      (levels : List (List String)) (processed : Nat),
      (levels.join ++ queue).Nodup →
      (∀ x ∈ levels.join ++ queue, x ∈ nodeIds g) →
      processed = levels.join.length →
      (∀ v ∈ nodeIds g, deg v = remDeg g levels.join v) →
      (∀ v ∈ queue, remDeg g levels.join v = 0) →
      (∀ v ∈ nodeIds g, v ∉ levels.join ++ queue → remDeg g levels.join v ≠ 0) →
      (∀ i (hi : i < levels.length), ∀ v ∈ levels[i],
        ∀ p ∈ predecessorsOf g v, p ∈ (levels.take i).join) →
      (nodeIds g).length - levels.join.length < fuel →
      ((kahnLoop g fuel queue deg levels processed).1.join.Nodup) ∧
      (∀ x ∈ (kahnLoop g fuel queue deg levels processed).1.join, x ∈ nodeIds g) ∧
      ((kahnLoop g fuel queue deg levels processed).2
        = (kahnLoop g fuel queue deg levels processed).1.join.length) ∧
      (∀ v ∈ nodeIds g, v ∉ (kahnLoop g fuel queue deg levels processed).1.join →
        remDeg g (kahnLoop g fuel queue deg levels processed).1.join v ≠ 0) ∧
      (∀ i (hi : i < (kahnLoop g fuel queue deg levels processed).1.length),
        ∀ v ∈ (kahnLoop g fuel queue deg levels processed).1[i],
        ∀ p ∈ predecessorsOf g v,
          p ∈ ((kahnLoop g fuel queue deg levels processed).1.take i).join) := by
  intro fuel
  induction fuel with
  | zero =>
    intro queue deg levels processed _ _ _ _ _ _ _ hfuel
    exact absurd hfuel (Nat.not_lt_zero _)
  | succ fuel ih =>
    intro queue deg levels processed hnd hsub hproc hdeg hqzero hblocked horder hfuel
    rw [kahnLoop]
    by_cases hq : queue.isEmpty
    · rw [if_pos hq]
      have hqnil : queue = [] := List.isEmpty_iff.mp hq
      subst hqnil
      rw [List.append_nil] at hnd hsub
      refine ⟨hnd, hsub, hproc, ?_, horder⟩
      intro v hv hnv
      exact hblocked v hv (by rw [List.append_nil]; exact hnv)
    · rw [if_neg hq]
      dsimp only
      have hqne : queue ≠ [] := fun h => hq (by rw [h]; rfl)
      obtain ⟨hndD, hndQ, hdisjDQ⟩ := List.nodup_append.mp hnd
      have hdisj : ∀ x ∈ queue, x ∉ levels.join := fun x hx hxD => hdisjDQ hxD hx
      obtain ⟨hpdeg, hpnd, hpmem⟩ := processLevel_spec g levels.join queue deg hndQ
        hdisj hdeg
      have hD' : (levels ++ [queue]).join = levels.join ++ queue := join_concat levels queue
      have hDzero : ∀ x ∈ levels.join, remDeg g levels.join x = 0 := by
        intro x hx
        rw [remDeg_eq_zero_iff]
        intro p hp
        rw [List.mem_join] at hx
        obtain ⟨l, hl, hxl⟩ := hx
        obtain ⟨i, hi, hil⟩ := List.mem_iff_getElem.mp hl
        have h2 := horder i hi x (by rw [hil]; exact hxl) p hp
        rw [join_take_drop levels i]
        exact List.mem_append.mpr (Or.inl h2)
      have inv1 : ((levels ++ [queue]).join ++ (processLevel g deg queue).2).Nodup := by
        rw [hD']
        refine List.Nodup.append hnd hpnd ?_
        intro a ha hanext
        obtain ⟨haN, hapos, _⟩ := (hpmem a).mp hanext
        rcases List.mem_append.mp ha with haD | haQ
        · exact absurd (hDzero a haD) (by omega)
        · exact absurd (hqzero a haQ) (by omega)
      have inv2 : ∀ x ∈ (levels ++ [queue]).join ++ (processLevel g deg queue).2,
          x ∈ nodeIds g := by
        intro x hx
        rw [hD'] at hx
        rcases List.mem_append.mp hx with hx | hx
        · exact hsub x hx
        · exact ((hpmem x).mp hx).1
      have inv3 : processed + queue.length = (levels ++ [queue]).join.length := by
        rw [hD', List.length_append, hproc]
      have inv4 : ∀ v ∈ nodeIds g, (processLevel g deg queue).1 v
          = remDeg g (levels ++ [queue]).join v := by
        intro v hv
        rw [hD']
        exact hpdeg v hv
      have inv5 : ∀ v ∈ (processLevel g deg queue).2,
          remDeg g (levels ++ [queue]).join v = 0 := by
        intro v hv
        rw [hD']
        exact ((hpmem v).mp hv).2.2
      have inv6 : ∀ v ∈ nodeIds g,
          v ∉ (levels ++ [queue]).join ++ (processLevel g deg queue).2 →
          remDeg g (levels ++ [queue]).join v ≠ 0 := by
        intro v hv hnmem heq0
        rw [hD'] at hnmem heq0
        by_cases hDQ : remDeg g levels.join v = 0
        · have hvDQ : v ∉ levels.join ++ queue :=
            fun h => hnmem (List.mem_append.mpr (Or.inl h))
          exact hblocked v hv hvDQ hDQ
        · have hvnext : v ∈ (processLevel g deg queue).2 :=
            (hpmem v).mpr ⟨hv, Nat.pos_of_ne_zero hDQ, heq0⟩
          exact hnmem (List.mem_append.mpr (Or.inr hvnext))
      have inv7 : ∀ i (hi : i < (levels ++ [queue]).length),
          ∀ v ∈ (levels ++ [queue])[i], ∀ p ∈ predecessorsOf g v,
          p ∈ ((levels ++ [queue]).take i).join := by
        intro i hi v hv p hp
        rw [List.length_append, List.length_singleton] at hi
        by_cases hlt : i < levels.length
        · have hgl : (levels ++ [queue])[i] = levels[i] := List.getElem_append_left hlt
          rw [hgl] at hv
          have htk : (levels ++ [queue]).take i = levels.take i :=
            List.take_append_of_le_length (le_of_lt hlt)
          rw [htk]
          exact horder i hlt v hv p hp
        · have hieq : i = levels.length := by omega
          subst hieq
          have hgl : (levels ++ [queue])[levels.length] = queue := by
            rw [List.getElem_append_right (le_refl _)]
            simp
          rw [hgl] at hv
          have htk : (levels ++ [queue]).take levels.length = levels := by
            rw [List.take_append_of_le_length (le_refl _), List.take_length]
          rw [htk]
          exact (remDeg_eq_zero_iff g levels.join v).mp (hqzero v hv) p hp
      have invFuel : (nodeIds g).length - (levels ++ [queue]).join.length < fuel := by
        rw [hD', List.length_append]
        have hql : 0 < queue.length := List.length_pos.mpr hqne
        have hsp := List.subperm_of_subset hnd (fun x hx => hsub x hx)
        have hlen := hsp.length_le
        rw [List.length_append] at hlen
        omega
      exact ih (processLevel g deg queue).2 (processLevel g deg queue).1
        (levels ++ [queue]) (processed + queue.length) inv1 inv2 inv3 inv4 inv5
        inv6 inv7 invFuel

/-- A finite nonempty set in which every element has an in-neighbour inside
the set yields a cycle. -/
theorem exists_cycle_of_forall_pred (g : WorkflowGraph) (S : Finset String)
    (hne : S.Nonempty) (hstep : ∀ v ∈ S, ∃ u ∈ S, hasEdge g u v) :
    hasCycle g := by
  obtain ⟨v₀, hv₀⟩ := hne
  have hstep' : ∀ v : {x // x ∈ S}, ∃ u : {x // x ∈ S}, hasEdge g u.1 v.1 := by
    rintro ⟨v, hv⟩
    obtain ⟨u, hu, he⟩ := hstep v hv
    exact ⟨⟨u, hu⟩, he⟩
  choose f hf using hstep'
  have hchain : ∀ (k : Nat), 0 < k → ∀ (y : {x // x ∈ S}),
      Relation.TransGen (hasEdge g) (f^[k] y).1 y.1 := by
    intro k
    induction k with
    | zero => intro h; exact absurd h (lt_irrefl 0)
    | succ k ihk =>
      intro _ y
      by_cases hk0 : k = 0
      · subst hk0
        have h1 : f^[0 + 1] y = f y := by
          rw [Function.iterate_succ_apply, Function.iterate_zero_apply]
        rw [h1]
        exact Relation.TransGen.single (hf y)
      · have h1 : f^[k + 1] y = f^[k] (f y) := Function.iterate_succ_apply f k y
        rw [h1]
        exact Relation.TransGen.tail (ihk (Nat.pos_of_ne_zero hk0) (f y)) (hf y)
  obtain ⟨a, b, hab, he⟩ :=
    Finite.exists_ne_map_eq_of_infinite (fun n : Nat => f^[n] ⟨v₀, hv₀⟩)
  rcases Nat.lt_or_ge a b with hlt | hge
  · refine ⟨(f^[a] ⟨v₀, hv₀⟩).1, ?_⟩
    have h2 : f^[b] ⟨v₀, hv₀⟩ = f^[b - a] (f^[a] ⟨v₀, hv₀⟩) := by
      rw [← Function.iterate_add_apply]
      congr 1
      omega
    have h3 := hchain (b - a) (by omega) (f^[a] ⟨v₀, hv₀⟩)
    rw [← h2, ← he] at h3
    exact h3
  · have hlt : b < a := by omega
    refine ⟨(f^[b] ⟨v₀, hv₀⟩).1, ?_⟩
    have h2 : f^[a] ⟨v₀, hv₀⟩ = f^[a - b] (f^[b] ⟨v₀, hv₀⟩) := by
      rw [← Function.iterate_add_apply]
      congr 1
      omega
    have h3 := hchain (a - b) (by omega) (f^[b] ⟨v₀, hv₀⟩)
    rw [← h2, he] at h3
    exact h3

/-- In levels placing every predecessor strictly earlier, an edge's source
sits in a strictly earlier level than its target. -/
theorem edge_level_lt (g : WorkflowGraph) (ls : List (List String))
    (horder : ∀ j (hj : j < ls.length), ∀ v ∈ ls[j],
      ∀ p ∈ predecessorsOf g v, p ∈ (ls.take j).join)
    (u v : String) (he : hasEdge g u v) :
    ∀ j (hj : j < ls.length), v ∈ ls[j] →
      ∃ i, ∃ (hi : i < ls.length), i < j ∧ u ∈ ls[i] := by
  intro j hj hv
  obtain ⟨e, hee, hs, ht⟩ := he
  have hpred : u ∈ predecessorsOf g v := by
    rw [predecessorsOf]
    refine List.mem_map.mpr ⟨e, ?_, hs⟩
    refine List.mem_filter.mpr ⟨hee, ?_⟩
    simp [ht]
  have h2 := horder j hj v hv u hpred
  rw [List.mem_join] at h2
  obtain ⟨l, hl, hul⟩ := h2
  obtain ⟨i, hi, hil⟩ := List.mem_iff_getElem.mp hl
  rw [List.length_take] at hi
  have hij : i < j := lt_of_lt_of_le hi (min_le_left _ _)
  have hlen : i < ls.length := lt_of_lt_of_le hi (min_le_right _ _)
  refine ⟨i, hlen, hij, ?_⟩
  rw [List.getElem_take] at hil
  rw [hil]
  exact hul

/-- Along a directed path, level indices strictly decrease towards the
source. -/
theorem transGen_level_lt (g : WorkflowGraph) (ls : List (List String))
    (horder : ∀ j (hj : j < ls.length), ∀ v ∈ ls[j],
      ∀ p ∈ predecessorsOf g v, p ∈ (ls.take j).join) :
    ∀ u v, Relation.TransGen (hasEdge g) u v →
      ∀ j (hj : j < ls.length), v ∈ ls[j] →
        ∃ i, ∃ (hi : i < ls.length), i < j ∧ u ∈ ls[i] := by
  intro u v htr
  induction htr with
  | single h =>
    intro j hj hv
    exact edge_level_lt g ls horder u _ h j hj hv
  | tail htr hlast ihtr =>
    intro j hj hv
    obtain ⟨i, hi, hij, hbi⟩ := edge_level_lt g ls horder _ _ hlast j hj hv
    obtain ⟨i2, hi2, hi2i, hui2⟩ := ihtr i hi hbi
    exact ⟨i2, hi2, by omega, hui2⟩

/-- Duplicate-free, predecessor-ordered levels covering every edge target
admit no cycle. -/
theorem no_cycle_of_strict_levels (g : WorkflowGraph) (ls : List (List String))
    (hjnodup : ls.join.Nodup)
    (horder : ∀ j (hj : j < ls.length), ∀ v ∈ ls[j],
      ∀ p ∈ predecessorsOf g v, p ∈ (ls.take j).join)
    (hall : ∀ v, (∃ e ∈ g.edges, e.target = v) → v ∈ ls.join) :
    ¬hasCycle g := by
  rintro ⟨v, htr⟩
  have hv : v ∈ ls.join := by
    apply hall
    cases htr with
    | single h =>
      obtain ⟨e, hee, _, ht⟩ := h
      exact ⟨e, hee, ht⟩
    | tail _ h =>
      obtain ⟨e, hee, _, ht⟩ := h
      exact ⟨e, hee, ht⟩
  rw [List.mem_join] at hv
  obtain ⟨l, hl, hvl⟩ := hv
  obtain ⟨j, hj, hjl⟩ := List.mem_iff_getElem.mp hl
  have hvj : v ∈ ls[j] := by
    rw [hjl]
    exact hvl
  obtain ⟨i, hi, hij, hvi⟩ := transGen_level_lt g ls horder v v htr j hj hvj
  have hsplit : ls.join = (ls.take j).join ++ (ls.drop j).join := join_take_drop ls j
  rw [hsplit] at hjnodup
  have hdisj := List.disjoint_of_nodup_append hjnodup
  have hvtake : v ∈ (ls.take j).join := by
    rw [List.mem_join]
    refine ⟨ls[i], ?_, hvi⟩
    refine List.mem_iff_getElem.mpr ⟨i, ?_, ?_⟩
    · rw [List.length_take]
      omega
    · rw [List.getElem_take]
  have hvdrop : v ∈ (ls.drop j).join := by
    rw [List.mem_join]
    refine ⟨ls[j], ?_, hvj⟩
    refine List.mem_iff_getElem.mpr ⟨0, ?_, ?_⟩
    · rw [List.length_drop]
      omega
    · simp
  exact hdisj hvtake hvdrop

/-- A node cannot sit in two distinct levels of a duplicate-free
stratification. -/
theorem levels_mem_unique (ls : List (List String)) (hjnodup : ls.join.Nodup)
    (u : String) (i j : Nat) (hi : i < ls.length) (hj : j < ls.length)
    (hui : u ∈ ls[i]) (huj : u ∈ ls[j]) (hij : i < j) : False := by
  have hsplit : ls.join = (ls.take j).join ++ (ls.drop j).join := join_take_drop ls j
  rw [hsplit] at hjnodup
  have hdisj := List.disjoint_of_nodup_append hjnodup
  have hvtake : u ∈ (ls.take j).join := by
    rw [List.mem_join]
    refine ⟨ls[i], ?_, hui⟩
    refine List.mem_iff_getElem.mpr ⟨i, ?_, ?_⟩
    · rw [List.length_take]
      omega
    · rw [List.getElem_take]
  have hvdrop : u ∈ (ls.drop j).join := by
    rw [List.mem_join]
    refine ⟨ls[j], ?_, huj⟩
    refine List.mem_iff_getElem.mpr ⟨0, ?_, ?_⟩
    · rw [List.length_drop]
      omega
    · simp
  exact hdisj hvtake hvdrop

/-- C1: on a well-formed graph (distinct node ids, edge endpoints among the
nodes), `compute_execution_levels` of an acyclic graph returns levels whose
flattening is a duplicate-free permutation of the node ids — every node in
exactly one level — with every edge's source on a strictly earlier level
than its target; on a graph containing a cycle it returns the
`CycleDetected` error. -/
theorem compute_execution_levels_partition_and_cycle (g : WorkflowGraph)
    (hnodup : (nodeIds g).Nodup)
    (hedge : ∀ e ∈ g.edges, e.source ∈ nodeIds g ∧ e.target ∈ nodeIds g) :
    (¬hasCycle g → ∃ ls, g.compute_execution_levels = .ok ls ∧
      ls.join.Perm (nodeIds g) ∧ ls.join.Nodup ∧
      (∀ u v, hasEdge g u v → ∀ i j (hi : i < ls.length) (hj : j < ls.length),
        u ∈ ls[i] → v ∈ ls[j] → i < j)) ∧
    (hasCycle g → g.compute_execution_levels = .error .CycleDetected) := by
  rcases hkr : kahnLoop g ((nodeIds g).length + 1)
      ((nodeIds g).filter (fun v => (predecessorsOf g v).length == 0))
      (fun v => (predecessorsOf g v).length) [] 0 with ⟨ls, proc⟩
  have hres : g.compute_execution_levels
      = if proc ≠ (nodeIds g).length then .error .CycleDetected else .ok ls := by
    rw [WorkflowGraph.compute_execution_levels]
    dsimp only
    rw [hkr]
  have h1 : ((([] : List (List String)).join
      ++ (nodeIds g).filter (fun v => (predecessorsOf g v).length == 0))).Nodup :=
    hnodup.filter _
  have h2 : ∀ x ∈ ([] : List (List String)).join
      ++ (nodeIds g).filter (fun v => (predecessorsOf g v).length == 0),
      x ∈ nodeIds g := fun x hx => List.mem_of_mem_filter hx
  have h3 : 0 = ([] : List (List String)).join.length := rfl
  have h4 : ∀ v ∈ nodeIds g, (fun v => (predecessorsOf g v).length) v
      = remDeg g ([] : List (List String)).join v := by
    intro v _
    show (predecessorsOf g v).length = remDeg g [] v
    rw [remDeg_nil]
  have h5 : ∀ v ∈ (nodeIds g).filter (fun v => (predecessorsOf g v).length == 0),
      remDeg g ([] : List (List String)).join v = 0 := by
    intro v hv
    have hz := (List.mem_filter.mp hv).2
    have hz2 : (predecessorsOf g v).length = 0 := by simpa using hz
    show remDeg g [] v = 0
    rw [remDeg_nil]
    exact hz2
  have h6 : ∀ v ∈ nodeIds g, v ∉ ([] : List (List String)).join
      ++ (nodeIds g).filter (fun v => (predecessorsOf g v).length == 0) →
      remDeg g ([] : List (List String)).join v ≠ 0 := by
    intro v hv hnm h0
    apply hnm
    show v ∈ ([] : List String)
      ++ (nodeIds g).filter (fun v => (predecessorsOf g v).length == 0)
    rw [List.nil_append]
    refine List.mem_filter.mpr ⟨hv, ?_⟩
    have h0' : remDeg g [] v = 0 := h0
    rw [remDeg_nil] at h0'
    simp [h0']
  have h7 : ∀ i (hi : i < ([] : List (List String)).length),
      ∀ v ∈ ([] : List (List String))[i],
      ∀ p ∈ predecessorsOf g v, p ∈ (([] : List (List String)).take i).join := by
    intro i hi
    exact absurd hi (by simp)
  have h8 : (nodeIds g).length - ([] : List (List String)).join.length
      < (nodeIds g).length + 1 := by
    show (nodeIds g).length - 0 < (nodeIds g).length + 1
    omega
  have hspec := kahnLoop_ok g ((nodeIds g).length + 1)
    ((nodeIds g).filter (fun v => (predecessorsOf g v).length == 0))
    (fun v => (predecessorsOf g v).length) [] 0 h1 h2 h3 h4 h5 h6 h7 h8
  rw [hkr] at hspec
  simp only at hspec
  obtain ⟨hJnd, hJsub, hkproc, hkblocked, hkorder⟩ := hspec
  have hsp : List.Subperm ls.join (nodeIds g) :=
    List.subperm_of_subset hJnd (fun x hx => hJsub x hx)
  have hsplen := hsp.length_le
  constructor
  · intro hnc
    by_cases hproceq : proc = (nodeIds g).length
    · refine ⟨ls, ?_, ?_, hJnd, ?_⟩
      · rw [hres, if_neg (not_not_intro hproceq)]
      · exact hsp.perm_of_length_le (by omega)
      · intro u v he i j hi hj hui hvj
        obtain ⟨i2, hi2, hij2, hui2⟩ := edge_level_lt g ls hkorder u v he j hj hvj
        by_contra hc
        rcases Nat.lt_or_ge i2 i with h9 | h9
        · exact levels_mem_unique ls hJnd u i2 i hi2 hi hui2 hui h9
        · have hii : i < i2 := by omega
          exact levels_mem_unique ls hJnd u i i2 hi hi2 hui hui2 hii
    · exfalso
      apply hnc
      have hlt : ls.join.length < (nodeIds g).length := by omega
      have hex : ∃ x ∈ nodeIds g, x ∉ ls.join := by
        by_contra hno
        push_neg at hno
        have hsp2 := List.subperm_of_subset hnodup (fun x hx => hno x hx)
        have := hsp2.length_le
        omega
      have hSmem : ∀ x, x ∈ (nodeIds g).toFinset \ ls.join.toFinset
          ↔ (x ∈ nodeIds g ∧ x ∉ ls.join) := by
        intro x
        simp [Finset.mem_sdiff, List.mem_toFinset]
      apply exists_cycle_of_forall_pred g ((nodeIds g).toFinset \ ls.join.toFinset)
      · obtain ⟨x, hx1, hx2⟩ := hex
        exact ⟨x, (hSmem x).mpr ⟨hx1, hx2⟩⟩
      · intro v hv
        obtain ⟨hvN, hvJ⟩ := (hSmem v).mp hv
        have hrd := hkblocked v hvN hvJ
        have h9 : ¬(∀ p ∈ predecessorsOf g v, p ∈ ls.join) := by
          intro hall2
          exact hrd ((remDeg_eq_zero_iff g ls.join v).mpr hall2)
        push_neg at h9
        obtain ⟨p, hp, hpJ⟩ := h9
        rw [predecessorsOf] at hp
        obtain ⟨e, hef, hes⟩ := List.mem_map.mp hp
        have hee : e ∈ g.edges := List.mem_of_mem_filter hef
        have het : e.target = v := by
          have h10 := (List.mem_filter.mp hef).2
          simpa using h10
        refine ⟨p, (hSmem p).mpr ⟨?_, hpJ⟩, ⟨e, hee, hes, het⟩⟩
        rw [← hes]
        exact (hedge e hee).1
  · intro hcyc
    rw [hres]
    by_cases hproceq : proc = (nodeIds g).length
    · exfalso
      have hperm : ls.join.Perm (nodeIds g) := hsp.perm_of_length_le (by omega)
      have hnc := no_cycle_of_strict_levels g ls hJnd hkorder ?_
      · exact hnc hcyc
      · intro v hvt
        obtain ⟨e, hee, het⟩ := hvt
        rw [hperm.mem_iff]
        rw [← het]
        exact (hedge e hee).2
    · rw [if_pos hproceq]

/-- C1 (witness): the theorem applied to the diamond DAG of the source's own
topological-sort test, together with the acyclicity of that graph obtained
from the theorem's cycle branch. -/
theorem compute_execution_levels_partition_and_cycle_witness :
    (nodeIds diamondGraph).Nodup ∧
    (∀ e ∈ diamondGraph.edges,
      e.source ∈ nodeIds diamondGraph ∧ e.target ∈ nodeIds diamondGraph) ∧
    ¬hasCycle diamondGraph ∧
    diamondGraph.compute_execution_levels = .ok [["a"], ["b", "c"], ["d"]] :=
  ⟨by decide, by decide,
    fun hcyc => by
      have h := (compute_execution_levels_partition_and_cycle diamondGraph
        (by decide) (by decide)).2 hcyc
      rw [(rfl : diamondGraph.compute_execution_levels
        = .ok [["a"], ["b", "c"], ["d"]])] at h
      exact Except.noConfusion h,
    rfl⟩

end Nexus
